import Mathlib

/-!
Shallow embedding of the `constellation` topology engine.

The embedding translates `src/watcher.rs` (the hierarchy engine: `HierarchyNode`,
`selectors_match`, the `remove_*_node` family, `update_service_relationships`,
`update_httproute_relationships`, `update_pod_relationships`,
`add_pod_to_matching_services`, the watcher delete handlers, the `/healthz`
readiness check and the read/publish sorting of `src/router.rs`) and
`src/controller.rs` (the legacy graph engine: `Graph`, `add_node`, `add_edge`,
`remove_node`, `find_namespace_for`, `service_reconciler`).

Modelling conventions:
* `BTreeMap<String, String>` (labels, selectors) is modelled as an association
  list `Labels`; only keyed lookup is ever performed on it by the code.
* `ObjectMeta` is projected to the three fields the engine reads:
  `name`, `namespace`, `labels`.
* `HierarchyNode.resource_metadata` is omitted: it is computed by the pure
  function `extract_resource_metadata` from the node's kind, metadata and spec
  (plus the object's status) and is never read back by any tree-manipulating
  code, so it adds no information to the state.
* `HashMap` (in the controller graph) is modelled as an insertion-ordered
  association list with key-unique insert/remove.
-/

namespace Constellation

/-- Label / selector maps (`BTreeMap<String, String>` in the source). -/
abbrev Labels := List (String × String)

/-- `BTreeMap::get`: first binding of the key, if any. -/
def lookupL (m : Labels) (k : String) : Option String :=
  (m.find? (fun p => p.1 == k)).map (·.2)

/-- `watcher::selectors_match`: every selector key maps, in the labels, to an
equal value. -/
def selectors_match (selectors : Labels) (labels : Labels) : Bool :=
  selectors.all (fun kv => lookupL labels kv.1 == some kv.2)

/-- `watcher::ResourceKind`. -/
inductive ResourceKind where
  | Namespace
  | Service
  | Pod
  | HTTPRoute
deriving DecidableEq, Repr

instance : BEq ResourceKind := ⟨fun a b => decide (a = b)⟩

instance : LawfulBEq ResourceKind where
  eq_of_beq := by intro a b h; simpa [BEq.beq] using h
  rfl := by intro a; simp [BEq.beq]

/-- Projection of `kube::api::ObjectMeta` to the fields the engine reads. -/
structure MetaV where
  name : Option String
  nspace : Option String
  labels : Option Labels
deriving DecidableEq, Repr

/-- One `backendRefs` entry of an HTTPRoute rule (`kind` and `name` are the
only fields the engine reads). -/
structure BackendRef where
  kind : Option String
  name : String
deriving DecidableEq, Repr

/-- One HTTPRoute rule, projected to its `backend_refs` field. -/
structure RouteRule where
  backend_refs : Option (List BackendRef)
deriving DecidableEq, Repr

/-- `watcher::ResourceSpec`, with each payload projected to the fields the
engine reads: the Service selector and the HTTPRoute rules. The Pod and
Namespace payloads are never read by the tree logic. -/
inductive ResourceSpec where
  | NamespaceSpec
  | ServiceSpec (selector : Option Labels)
  | PodSpec
  | HTTPRouteSpec (rules : Option (List RouteRule))
deriving DecidableEq, Repr

/-- `watcher::HierarchyNode` (without the derived `resource_metadata`, see the
module comment). -/
inductive HierarchyNode : Type where
  | mk (kind : ResourceKind) (name : String) (mdata : MetaV)
       (spec : Option ResourceSpec) (relatives : List HierarchyNode)

namespace HierarchyNode

def kind : HierarchyNode → ResourceKind
  | .mk k _ _ _ _ => k

def name : HierarchyNode → String
  | .mk _ n _ _ _ => n

def mdata : HierarchyNode → MetaV
  | .mk _ _ m _ _ => m

def spec : HierarchyNode → Option ResourceSpec
  | .mk _ _ _ s _ => s

def relatives : HierarchyNode → List HierarchyNode
  | .mk _ _ _ _ r => r

/-- `node.relatives.extend(l)` / `push`: append children. -/
def extendRel (l : List HierarchyNode) : HierarchyNode → HierarchyNode
  | .mk k n m s r => .mk k n m s (r ++ l)

end HierarchyNode

/-- Identity test used by all three `remove_*_node` functions: a node is the
object identified by `(kind, name, metadata.namespace)`. -/
def isNodeId (k : ResourceKind) (nm : String) (ns : Option String)
    (c : HierarchyNode) : Bool :=
  c.kind == k && c.name == nm && c.mdata.nspace == ns

mutual

/-- Generic form of `remove_pod_node` / `remove_service_node` /
`remove_httproute_node`: retain the children that are not the identified
object, then recurse into the survivors. -/
def remove_kind_node (k : ResourceKind) (nm : String) (ns : Option String) :
    HierarchyNode → HierarchyNode
  | .mk kd n md sp rel => .mk kd n md sp (remove_kind_list k nm ns rel)

def remove_kind_list (k : ResourceKind) (nm : String) (ns : Option String) :
    List HierarchyNode → List HierarchyNode
  | [] => []
  | c :: cs =>
      (if isNodeId k nm ns c then [] else [remove_kind_node k nm ns c]) ++
        remove_kind_list k nm ns cs

end

/-- `watcher::remove_pod_node`. -/
def remove_pod_node (pod_name : String) (pod_ns : Option String) :
    HierarchyNode → HierarchyNode :=
  remove_kind_node .Pod pod_name pod_ns

/-- `watcher::remove_service_node`. -/
def remove_service_node (service_name : String) (service_ns : Option String) :
    HierarchyNode → HierarchyNode :=
  remove_kind_node .Service service_name service_ns

/-- `watcher::remove_httproute_node`. -/
def remove_httproute_node (httproute_name : String) (httproute_ns : Option String) :
    HierarchyNode → HierarchyNode :=
  remove_kind_node .HTTPRoute httproute_name httproute_ns

mutual

/-- Is there a node satisfying `q` in this tree (the node itself included)? -/
def existsNode (q : HierarchyNode → Bool) : HierarchyNode → Bool
  | .mk k n md sp rel => q (.mk k n md sp rel) || existsNodeL q rel

def existsNodeL (q : HierarchyNode → Bool) : List HierarchyNode → Bool
  | [] => false
  | c :: cs => existsNode q c || existsNodeL q cs

end

mutual

/-- Number of nodes satisfying `q` in this tree (the node itself included). -/
def countNode (q : HierarchyNode → Bool) : HierarchyNode → Nat
  | .mk k n md sp rel => (if q (.mk k n md sp rel) then 1 else 0) + countNodeL q rel

def countNodeL (q : HierarchyNode → Bool) : List HierarchyNode → Nat
  | [] => 0
  | c :: cs => countNode q c + countNodeL q cs

end

/-- Number of nodes satisfying `q` anywhere in a forest. -/
def countForest (q : HierarchyNode → Bool) (h : List HierarchyNode) : Nat :=
  countNodeL q h

/-- Is there a node satisfying `q` anywhere in a forest? -/
def existsForest (q : HierarchyNode → Bool) (h : List HierarchyNode) : Bool :=
  existsNodeL q h

/-- `for node in hierarchy.iter_mut() { if p(node) { *node = f(node); break } }`:
apply `f` to the first element satisfying `p`, leave everything else alone. -/
def mapFirst (p : HierarchyNode → Bool) (f : HierarchyNode → HierarchyNode) :
    List HierarchyNode → List HierarchyNode
  | [] => []
  | x :: xs => if p x then f x :: xs else x :: mapFirst p f xs

/-- Node test: a Service node with the given identity having a direct Pod
child with the given name. -/
def svcWithPodChild (sname : String) (sns : Option String) (pname : String)
    (c : HierarchyNode) : Bool :=
  isNodeId .Service sname sns c &&
    c.relatives.any (fun d => d.kind == .Pod && d.name == pname)

/-- Is there, anywhere in the forest, a Service node with the given identity
having a direct Pod child with the given name? -/
def podUnderService (sname : String) (sns : Option String) (pname : String)
    (h : List HierarchyNode) : Bool :=
  existsForest (svcWithPodChild sname sns pname) h

/-- Node test: an HTTPRoute node with the given identity having a direct
Service child with the given name. -/
def routeWithSvcChild (rname : String) (rns : Option String) (sname : String)
    (c : HierarchyNode) : Bool :=
  isNodeId .HTTPRoute rname rns c &&
    c.relatives.any (fun d => d.kind == .Service && d.name == sname)

/-- Is there, anywhere in the forest, an HTTPRoute node with the given identity
having a direct Service child with the given name? -/
def serviceUnderRoute (rname : String) (rns : Option String) (sname : String)
    (h : List HierarchyNode) : Bool :=
  existsForest (routeWithSvcChild rname rns sname) h

/-- A `Pod` object as the watcher sees it: metadata plus presence of a spec
(the engine reads no `PodSpec` field; `status` only feeds the omitted
`resource_metadata`). -/
structure PodV where
  mdata : MetaV
  spec : Option Unit
deriving DecidableEq, Repr

/-- `kube::ResourceExt::labels`: `metadata.labels` defaulting to empty. -/
def PodV.labelsD (p : PodV) : Labels := p.mdata.labels.getD []

/-- A `ServiceSpec`, projected to its selector (the only field the tree logic
reads). -/
structure SvcSpecV where
  selector : Option Labels
deriving DecidableEq, Repr

/-- A `Service` object as the watcher sees it. -/
structure ServiceV where
  mdata : MetaV
  spec : Option SvcSpecV
deriving DecidableEq, Repr

/-- An `HTTPRouteSpec`, projected to its rules. -/
structure RouteSpecV where
  rules : Option (List RouteRule)
deriving DecidableEq, Repr

/-- An `HTTPRoute` object as the watcher sees it (its spec is not optional). -/
structure RouteV where
  mdata : MetaV
  spec : RouteSpecV
deriving DecidableEq, Repr

/-- `watcher::new_pod` (without the omitted `resource_metadata`). -/
def new_pod (pod : PodV) : HierarchyNode :=
  .mk .Pod (pod.mdata.name.getD "") pod.mdata
    (pod.spec.map (fun _ => .PodSpec)) []

/-- `watcher::new_service` (without the omitted `resource_metadata`). -/
def new_service (service : ServiceV) : HierarchyNode :=
  .mk .Service (service.mdata.name.getD "") service.mdata
    (service.spec.map (fun sp => .ServiceSpec sp.selector)) []

/-- The backend-reference test shared by `update_service_relationships` and
`update_httproute_relationships`:
`spec.rules.iter().flatten().flat_map(|rule| &rule.backend_refs).flatten()
   .any(|r| r.kind.as_deref() == Some("Service") && r.name == service_name)`. -/
def routeReferencesName (rules : Option (List RouteRule)) (service_name : String) : Bool :=
  (rules.getD []).any (fun rule =>
    (rule.backend_refs.getD []).any (fun r =>
      r.kind == some "Service" && r.name == service_name))

/-- The per-child test of the httproute loop in `update_service_relationships`:
the child is an HTTPRoute whose spec references `service_name`. -/
def is_referencing_route (service_name : String) (c : HierarchyNode) : Bool :=
  c.kind == .HTTPRoute &&
    match c.spec with
    | some (.HTTPRouteSpec rules) => routeReferencesName rules service_name
    | _ => false

/-- The fresh service node with its matching Pod children, as built (twice,
identically) inside `update_service_relationships` and once inside
`update_httproute_relationships`: `new_service(service)` whose relatives are
extended with `new_pod(pod)` for every pod in the snapshot with
`pod_ns == service_ns && selectors_match(selector.unwrap_or_default(), pod.labels())`
(pods are only added when the service node carries a `ServiceSpec`). -/
def service_with_pods (service : ServiceV) (pods : List PodV) : HierarchyNode :=
  let service_ns := service.mdata.nspace
  let snode := new_service service
  match snode.spec with
  | some (.ServiceSpec selector) =>
      snode.extendRel
        ((pods.filter (fun pod =>
            pod.mdata.nspace == service_ns &&
              selectors_match (selector.getD []) pod.labelsD)).map new_pod)
  | _ => snode

/-- Body of the namespace-node branch of `update_service_relationships`: push
a copy of the service (with its matching pods) under every referencing
HTTPRoute child; if none references it, push the copy directly under the
Namespace node. -/
def attach_service (service : ServiceV) (pods : List PodV)
    (nsNode : HierarchyNode) : HierarchyNode :=
  let service_name := service.mdata.name.getD ""
  let withRoutes := nsNode.relatives.map (fun c =>
    if is_referencing_route service_name c
    then c.extendRel [service_with_pods service pods]
    else c)
  let service_added_to_httproute :=
    nsNode.relatives.any (is_referencing_route service_name)
  .mk nsNode.kind nsNode.name nsNode.mdata nsNode.spec
    (withRoutes ++
      (if service_added_to_httproute then []
       else [service_with_pods service pods]))

/-- `watcher::update_service_relationships`: remove every copy of the service
from every root, then, inside the first Namespace root with the service's
namespace, push a copy (with its matching pods) under every HTTPRoute child
that references it, or directly under the Namespace node if no route does. -/
def update_service_relationships (hierarchy : List HierarchyNode)
    (service : ServiceV) (pods : List PodV) : List HierarchyNode :=
  let service_name := service.mdata.name.getD ""
  let service_ns := service.mdata.nspace
  let h1 := hierarchy.map (remove_service_node service_name service_ns)
  mapFirst
    (fun n => n.kind == .Namespace && n.mdata.name == service_ns)
    (attach_service service pods)
    h1

/-- The HTTPRoute node freshly built by `update_httproute_relationships`:
hostname/route metadata plus, as children, a copy (with matching pods) of
every same-namespace service from the snapshot that the route references. -/
def build_route_node (httproute : RouteV) (services : List ServiceV)
    (pods : List PodV) : HierarchyNode :=
  let httproute_ns := httproute.mdata.nspace
  .mk .HTTPRoute (httproute.mdata.name.getD "") httproute.mdata
    (some (.HTTPRouteSpec httproute.spec.rules))
    ((services.filter (fun service =>
        service.mdata.nspace == httproute_ns &&
          routeReferencesName httproute.spec.rules (service.mdata.name.getD ""))).map
      (fun service => service_with_pods service pods))

/-- Body of the namespace-node branch of `update_httproute_relationships`:
`namespace_node.relatives.push(httproute_node)`. -/
def attach_route (httproute : RouteV) (services : List ServiceV)
    (pods : List PodV) (nsNode : HierarchyNode) : HierarchyNode :=
  nsNode.extendRel [build_route_node httproute services pods]

/-- `watcher::update_httproute_relationships`: remove every copy of the route
from every root, then push the freshly built route node (with its referenced
services and their pods) under the first Namespace root with the route's
namespace. -/
def update_httproute_relationships (hierarchy : List HierarchyNode)
    (httproute : RouteV) (services : List ServiceV) (pods : List PodV) :
    List HierarchyNode :=
  let httproute_name := httproute.mdata.name.getD ""
  let httproute_ns := httproute.mdata.nspace
  let h1 := hierarchy.map (remove_httproute_node httproute_name httproute_ns)
  mapFirst
    (fun n => n.kind == .Namespace && n.mdata.name == httproute_ns)
    (attach_route httproute services pods)
    h1

/-- The service-match test of `add_pod_to_matching_services`: the node is a
Service carrying a `ServiceSpec`, in the pod's namespace, whose selector
(defaulted to empty) matches the pod's labels. -/
def pod_matches_service (pod : PodV) (pod_labels : Labels)
    (c : HierarchyNode) : Bool :=
  c.kind == .Service &&
    match c.spec with
    | some (.ServiceSpec selector) =>
        c.mdata.nspace == pod.mdata.nspace &&
          selectors_match (selector.getD []) pod_labels
    | _ => false

mutual

/-- `watcher::add_pod_to_matching_services`: push a copy of the pod under this
node if it is a matching service (setting the `pod_added` flag), then recurse
into every child. In the source the freshly pushed Pod node is also visited by
the recursion, which leaves it unchanged (it is a Pod with no children), so the
embedding recurses over the original children and appends the new Pod copy. -/
def add_pod_to_matching_services (pod : PodV) (pod_labels : Labels) :
    HierarchyNode → Bool → HierarchyNode × Bool
  | .mk k n md sp rel, pod_added =>
      let c : HierarchyNode := .mk k n md sp rel
      let hit := pod_matches_service pod pod_labels c
      let b1 := if hit then true else pod_added
      let r := add_pod_list pod pod_labels rel b1
      (.mk k n md sp (r.1 ++ (if hit then [new_pod pod] else [])), r.2)

def add_pod_list (pod : PodV) (pod_labels : Labels) :
    List HierarchyNode → Bool → List HierarchyNode × Bool
  | [], pod_added => ([], pod_added)
  | c :: cs, pod_added =>
      let r1 := add_pod_to_matching_services pod pod_labels c pod_added
      let r2 := add_pod_list pod pod_labels cs r1.2
      (r1.1 :: r2.1, r2.2)

end

/-- Body of the namespace-node branch of `update_pod_relationships`. -/
def attach_pod (pod : PodV) (nsNode : HierarchyNode) : HierarchyNode :=
  let r := add_pod_to_matching_services pod pod.labelsD nsNode false
  if r.2 then r.1 else r.1.extendRel [new_pod pod]

/-- `watcher::update_pod_relationships`: remove every copy of the pod from
every root, then, inside the first Namespace root with the pod's namespace,
add a copy under every matching service; if none matched, push the pod
directly under the Namespace node. -/
def update_pod_relationships (hierarchy : List HierarchyNode) (pod : PodV) :
    List HierarchyNode :=
  let pod_name := pod.mdata.name.getD ""
  let pod_ns := pod.mdata.nspace
  let h1 := hierarchy.map (remove_pod_node pod_name pod_ns)
  mapFirst
    (fun n => n.kind == .Namespace && n.mdata.name == pod_ns)
    (attach_pod pod)
    h1

/-- The `watcher::service_watcher` Delete arm: remove every copy of the
service (subtree included) from every root. -/
def service_delete (hierarchy : List HierarchyNode) (service : ServiceV) :
    List HierarchyNode :=
  hierarchy.map
    (remove_service_node (service.mdata.name.getD "") service.mdata.nspace)

/-- The `watcher::namespace_watcher` Delete arm:
`hierarchy.retain(|node| !(node.kind == Namespace && node.name == namespace_name))`. -/
def namespace_delete (hierarchy : List HierarchyNode) (namespace_name : String) :
    List HierarchyNode :=
  hierarchy.filter (fun node => !(node.kind == .Namespace && node.name == namespace_name))

/-- The `watcher::httproute_watcher` Delete arm: remove every copy of the
route (subtree included) from every root, then, for every service of the
service snapshot living in the route's namespace, re-run
`update_service_relationships` with the pod snapshot. -/
def httproute_delete (hierarchy : List HierarchyNode) (httproute : RouteV)
    (services : List ServiceV) (pods : List PodV) : List HierarchyNode :=
  let httproute_name := httproute.mdata.name.getD ""
  let httproute_ns := httproute.mdata.nspace
  let h1 := hierarchy.map (remove_httproute_node httproute_name httproute_ns)
  services.foldl
    (fun h service =>
      if service.mdata.nspace == httproute_ns
      then update_service_relationships h service pods
      else h)
    h1

/-- `router::healthz`: HTTP 503 (SERVICE_UNAVAILABLE) while the hierarchy is
empty, HTTP 200 (OK) once it is not. -/
def healthz (hierarchy : List HierarchyNode) : Nat :=
  let ready := !hierarchy.isEmpty
  if !ready then 503 else 200

/-- The read/publish sorting of `router::state` and `router::handle_socket`:
`sorted.sort_by(|a, b| a.name.cmp(&b.name))`, a stable sort of the root list by
node name. Rust's stable `sort_by` and insertion sort agree on every input, so
the model uses Mathlib's stable `insertionSort`. -/
def sort_state (hierarchy : List HierarchyNode) : List HierarchyNode :=
  hierarchy.insertionSort (fun a b => a.name ≤ b.name)

/-- Is a list of names weakly increasing? -/
def namesSorted : List String → Bool
  | [] => true
  | [_] => true
  | a :: b :: rest => (decide (a ≤ b)) && namesSorted (b :: rest)

mutual

/-- Are sibling lists name-sorted at every level below (and including) this
node? This is the property claimed of every published tree. -/
def allLevelsSorted : HierarchyNode → Bool
  | .mk _ _ _ _ rel =>
      namesSorted (rel.map HierarchyNode.name) && allLevelsSortedL rel

def allLevelsSortedL : List HierarchyNode → Bool
  | [] => true
  | c :: cs => allLevelsSorted c && allLevelsSortedL cs

end

/-- A published forest is name-sorted at every level: the root list is sorted
and every node's child list is sorted, recursively. -/
def forestAllSorted (h : List HierarchyNode) : Bool :=
  namesSorted (h.map HierarchyNode.name) && allLevelsSortedL h

namespace Ctrl

/-- `controller::ResourceKind`. -/
inductive CResourceKind where
  | Namespace
  | Pod
  | Service
  | Ingress
deriving DecidableEq, Repr

instance : BEq CResourceKind := ⟨fun a b => decide (a = b)⟩

instance : LawfulBEq CResourceKind where
  eq_of_beq := by intro a b h; simpa [BEq.beq] using h
  rfl := by intro a; simp [BEq.beq]

/-- `controller::NodeId`. -/
structure NodeId where
  nspace : Option String
  name : String
deriving DecidableEq, Repr

/-- `controller::NodeId::key`. -/
def NodeId.key (id : NodeId) : String :=
  match id.nspace with
  | some ns => ns ++ "/" ++ id.name
  | none => id.name

/-- `controller::Spec`, with each payload projected to the fields the graph
logic reads (only the Service selector is ever read from a stored spec). -/
inductive CSpec where
  | PodSpec
  | ServiceSpec (selector : Option Labels)
  | NamespaceSpec
deriving DecidableEq, Repr

/-- `controller::Node` (metadata projected as in the watcher model). -/
structure CNode where
  id : NodeId
  kind : CResourceKind
  mdata : MetaV
  spec : CSpec
deriving DecidableEq, Repr

/-- `controller::Edginfo`. -/
structure EdgeInfo where
  id : String
  kind : CResourceKind
deriving DecidableEq, Repr

/-- `HashMap` lookup: value stored at a key. -/
def getA {β : Type} (m : List (String × β)) (k : String) : Option β :=
  (m.find? (fun p => p.1 == k)).map (·.2)

/-- `HashMap::contains_key`. -/
def containsA {β : Type} (m : List (String × β)) (k : String) : Bool :=
  m.any (fun p => p.1 == k)

/-- `HashMap::insert`: overwrite the existing binding or append a new one. -/
def insertA {β : Type} : List (String × β) → String → β → List (String × β)
  | [], k, v => [(k, v)]
  | (k', v') :: rest, k, v =>
      if k' == k then (k, v) :: rest else (k', v') :: insertA rest k v

/-- `HashMap::remove` (of the binding; the removed value is read via `getA`). -/
def removeA {β : Type} : List (String × β) → String → List (String × β)
  | [], _ => []
  | (k', v') :: rest, k => if k' == k then rest else (k', v') :: removeA rest k

/-- `HashMap::get_mut` followed by an in-place update of the stored value
(no-op when the key is absent). -/
def updateA {β : Type} (m : List (String × β)) (k : String) (f : β → β) :
    List (String × β) :=
  m.map (fun p => if p.1 == k then (p.1, f p.2) else p)

/-- `controller::Graph`. -/
structure Graph where
  nodes : List (String × CNode)
  edges : List (String × List EdgeInfo)
  reverse : List (String × String)
deriving DecidableEq, Repr

/-- `controller::Graph::add_node`. -/
def Graph.add_node (g : Graph) (node : CNode) : Graph :=
  { g with nodes := insertA g.nodes node.id.key node }

/-- `controller::Graph::add_edge`: only when both endpoints are present in the
nodes map, append the child to the parent's edge list and point the child's
reverse entry at the parent. -/
def Graph.add_edge (g : Graph) (parent child : NodeId) : Graph :=
  let pkey := parent.key
  let ckey := child.key
  if containsA g.nodes pkey && containsA g.nodes ckey then
    match getA g.nodes ckey with
    | some cnode =>
        { nodes := g.nodes
          edges := insertA g.edges pkey
            ((getA g.edges pkey).getD [] ++ [⟨ckey, cnode.kind⟩])
          reverse := insertA g.reverse ckey pkey }
    | none => g
  else g

/-- `controller::Graph::find_namespace_for`. In the source the candidate walk
is over `HashMap::values()`, whose order is unspecified; the model walks the
association list in insertion order. -/
def Graph.find_namespace_for (g : Graph) (child_key : String) : Option NodeId :=
  match getA g.nodes child_key with
  | none => none
  | some cnode =>
      match cnode.id.nspace with
      | none => none
      | some ns =>
          (g.nodes.find? (fun p =>
            p.2.kind == .Namespace && p.2.id.name == ns)).map (·.2.id)

/-- `controller::Graph::remove_node`: drop the node, re-home its children to
their namespace roots, and detach it from its own parent's edge list. -/
def Graph.remove_node (g : Graph) (id : NodeId) : Graph :=
  let key := id.key
  let g1 : Graph := { g with nodes := removeA g.nodes key }
  let children := (getA g1.edges key).getD []
  let g2 : Graph := { g1 with edges := removeA g1.edges key }
  let g3 := children.foldl (fun (acc : Graph) edge =>
    let acc1 : Graph := { acc with reverse := removeA acc.reverse edge.id }
    match acc1.find_namespace_for edge.id with
    | some ns_id =>
        match getA acc1.nodes edge.id with
        | some cnode => acc1.add_edge ns_id ⟨cnode.id.nspace, cnode.id.name⟩
        | none => acc1
    | none => acc1) g2
  match getA g3.reverse key with
  | some parent =>
      { g3 with
          reverse := removeA g3.reverse key
          edges := updateA g3.edges parent
            (fun ch => ch.filter (fun e => !(e.id == key))) }
  | none => g3

/-- A `Service` object as `controller::service_reconciler` sees it. -/
structure CServiceV where
  mname : Option String
  mnspace : Option String
  mlabels : Option Labels
  spec : Option SvcSpecV
  deletion : Bool
deriving DecidableEq, Repr

/-- The placeholder Namespace node inserted by `service_reconciler` when the
service's namespace is not yet in the graph. -/
def placeholder_namespace (nspace : String) : CNode :=
  ⟨⟨some nspace, nspace⟩, .Namespace, ⟨some nspace, some nspace, none⟩, .NamespaceSpec⟩

/-- `controller::service_reconciler` (the graph mutation it performs; the
`Action` return value carries no state). -/
def service_reconciler (service : CServiceV) (g0 : Graph) : Graph :=
  match service.mname with
  | none => g0
  | some name =>
  match service.mnspace with
  | none => g0
  | some nspace =>
  match service.spec with
  | none => g0
  | some spec =>
  let node_id : NodeId := ⟨some nspace, name⟩
  if service.deletion then g0.remove_node node_id
  else
    let ns_id : NodeId := ⟨some nspace, nspace⟩
    let g1 : Graph :=
      if containsA g0.nodes ns_id.key then g0
      else { g0 with nodes := insertA g0.nodes ns_id.key (placeholder_namespace nspace) }
    let svc_node : CNode :=
      ⟨node_id, .Service, ⟨service.mname, service.mnspace, service.mlabels⟩,
        .ServiceSpec spec.selector⟩
    let g2 := g1.add_node svc_node
    let g3 : Graph :=
      match getA g2.reverse node_id.key with
      | some parent_key =>
          { g2 with
              edges := updateA g2.edges parent_key
                (fun ch => ch.filter (fun e => !(e.id == node_id.key)))
              reverse := removeA g2.reverse node_id.key }
      | none => g2
    let g4 := g3.add_edge ns_id node_id
    match spec.selector with
    | none => g4
    | some selector =>
        let pods_to_attach : List NodeId :=
          (g4.nodes.filter (fun p =>
            p.2.kind == .Pod && p.2.id.nspace == some nspace &&
              selectors_match selector (p.2.mdata.labels.getD []))).map (·.2.id)
        pods_to_attach.foldl (fun (acc : Graph) pod_id =>
          let acc1 := acc.add_edge node_id pod_id
          match acc1.find_namespace_for pod_id.key with
          | some ns_for_pod =>
              { acc1 with
                  edges := updateA acc1.edges ns_for_pod.key
                    (fun ch => ch.filter (fun e => !(e.id == pod_id.key)))
                  reverse := removeA acc1.reverse pod_id.key }
          | none => acc1) g4

/-- Invariant carried through `service_reconciler`'s pod-attachment fold:
the nodes map is the one built before the fold, the service's reverse entry
points at the namespace, and the namespace's edge list keeps an entry for the
service. -/
def ReconInv (N2 : List (String × CNode)) (nsK svcK : String) (x : Graph) : Prop :=
  x.nodes = N2 ∧ getA x.reverse svcK = some nsK ∧
    ((getA x.edges nsK).getD []).any (fun e => e.id == svcK) = true

end Ctrl

/-- A predicate that reads only a node's identity fields (not its children). -/
def RelIndep (q : HierarchyNode → Bool) : Prop :=
  ∀ kd n md sp rel rel', q (.mk kd n md sp rel) = q (.mk kd n md sp rel')

/-! ### Concrete fixtures (the spec's Scenario A/B/C objects) -/

/-- The `ns1` root node exactly as the namespace Apply arm builds it. -/
def ns1node : HierarchyNode :=
  .mk .Namespace "ns1" ⟨some "ns1", none, none⟩ (some .NamespaceSpec) []

/-- Pod `pod1` with labels `app=web` in `ns1`. -/
def pod1 : PodV := ⟨⟨some "pod1", some "ns1", some [("app", "web")]⟩, some ()⟩

/-- Service `svc1` with selector `app=web` in `ns1`. -/
def svc1 : ServiceV := ⟨⟨some "svc1", some "ns1", none⟩, some ⟨some [("app", "web")]⟩⟩

/-- Route `r1` in `ns1` with one backend reference of kind `Service` naming
`svc1`. -/
def r1 : RouteV :=
  ⟨⟨some "r1", some "ns1", none⟩, ⟨some [⟨some [⟨some "Service", "svc1"⟩]⟩]⟩⟩

/-- The state after Scenario A and B: `ns1` applied, then `svc1` (no pods
known yet), then `pod1`, then `r1` (with both `svc1` and `pod1` in the
caches). -/
def scenarioAB : List HierarchyNode :=
  update_httproute_relationships
    (update_pod_relationships
      (update_service_relationships [ns1node] svc1 [])
      pod1)
    r1 [svc1] [pod1]

/-- Empty-selector service `svcE` in `ns1` (`selector: Some({})`). -/
def svcE : ServiceV := ⟨⟨some "svcE", some "ns1", none⟩, some ⟨some []⟩⟩

/-- Services `svcA` and `svcB`, both with selector `app=web` in `ns1`. -/
def svcA : ServiceV := ⟨⟨some "svcA", some "ns1", none⟩, some ⟨some [("app", "web")]⟩⟩

def svcB : ServiceV := ⟨⟨some "svcB", some "ns1", none⟩, some ⟨some [("app", "web")]⟩⟩

/-- Is there, anywhere in the forest, a Namespace node with the given name
having a direct Service child with the given identity? -/
def serviceDirectlyUnderNamespace (namespace_name : String) (sname : String)
    (sns : Option String) (h : List HierarchyNode) : Bool :=
  existsForest (fun c => c.kind == .Namespace && c.name == namespace_name &&
    c.relatives.any (isNodeId .Service sname sns)) h

/-- A forest with two Pod roots' children out of name order. -/
def unsortedRoots : List HierarchyNode :=
  [.mk .Namespace "ns1" ⟨some "ns1", none, none⟩ (some .NamespaceSpec)
    [.mk .Pod "b" ⟨some "b", some "ns1", none⟩ (some .PodSpec) [],
     .mk .Pod "a" ⟨some "a", some "ns1", none⟩ (some .PodSpec) []]]

instance : IsTotal HierarchyNode (fun a b => a.name ≤ b.name) :=
  ⟨fun a b => le_total a.name b.name⟩

instance : IsTrans HierarchyNode (fun a b => a.name ≤ b.name) :=
  ⟨fun _ _ _ hab hbc => le_trans hab hbc⟩

namespace HierarchyNode

@[simp] theorem kind_mk (k n m s r) : (HierarchyNode.mk k n m s r).kind = k := rfl
@[simp] theorem name_mk (k n m s r) : (HierarchyNode.mk k n m s r).name = n := rfl
@[simp] theorem mdata_mk (k n m s r) : (HierarchyNode.mk k n m s r).mdata = m := rfl
@[simp] theorem spec_mk (k n m s r) : (HierarchyNode.mk k n m s r).spec = s := rfl
@[simp] theorem relatives_mk (k n m s r) : (HierarchyNode.mk k n m s r).relatives = r := rfl

/-- Strong induction over the rose tree. -/
theorem strongInd {P : HierarchyNode → Prop}
    (ih : ∀ k n m s rel, (∀ c ∈ rel, P c) → P (.mk k n m s rel)) : ∀ t, P t
  | .mk k n m s rel => ih k n m s rel (fun c _ => strongInd ih c)

end HierarchyNode

/-! ### Basic lemmas about the tree traversals -/

theorem remove_kind_list_eq (k : ResourceKind) (nm : String) (ns : Option String)
    (l : List HierarchyNode) :
    remove_kind_list k nm ns l =
      (l.filter (fun c => !isNodeId k nm ns c)).map (remove_kind_node k nm ns) := by
  induction l with
  | nil => simp [remove_kind_list]
  | cons c cs ih =>
    rw [remove_kind_list, ih, List.filter_cons]
    by_cases h : isNodeId k nm ns c = true
    · simp [h]
    · simp only [Bool.not_eq_true] at h
      simp [h]

@[simp] theorem kind_remove_kind_node (k nm ns) (c : HierarchyNode) :
    (remove_kind_node k nm ns c).kind = c.kind := by
  cases c with | mk kd n md sp rel => rw [remove_kind_node]; rfl

@[simp] theorem name_remove_kind_node (k nm ns) (c : HierarchyNode) :
    (remove_kind_node k nm ns c).name = c.name := by
  cases c with | mk kd n md sp rel => rw [remove_kind_node]; rfl

@[simp] theorem mdata_remove_kind_node (k nm ns) (c : HierarchyNode) :
    (remove_kind_node k nm ns c).mdata = c.mdata := by
  cases c with | mk kd n md sp rel => rw [remove_kind_node]; rfl

@[simp] theorem spec_remove_kind_node (k nm ns) (c : HierarchyNode) :
    (remove_kind_node k nm ns c).spec = c.spec := by
  cases c with | mk kd n md sp rel => rw [remove_kind_node]; rfl

@[simp] theorem relatives_remove_kind_node (k nm ns) (kd n md sp rel) :
    (remove_kind_node k nm ns (.mk kd n md sp rel)).relatives =
      remove_kind_list k nm ns rel := by
  rw [remove_kind_node]; rfl

@[simp] theorem isNodeId_remove_kind_node (k nm ns k' nm' ns') (c : HierarchyNode) :
    isNodeId k nm ns (remove_kind_node k' nm' ns' c) = isNodeId k nm ns c := by
  simp [isNodeId]

@[simp] theorem existsNodeL_nil (q) : existsNodeL q [] = false := by
  rw [existsNodeL]

@[simp] theorem existsNodeL_cons (q c cs) :
    existsNodeL q (c :: cs) = (existsNode q c || existsNodeL q cs) := by
  rw [existsNodeL]

@[simp] theorem countNodeL_nil (q) : countNodeL q [] = 0 := by
  rw [countNodeL]

@[simp] theorem countNodeL_cons (q c cs) :
    countNodeL q (c :: cs) = countNode q c + countNodeL q cs := by
  rw [countNodeL]

theorem existsNodeL_eq (q : HierarchyNode → Bool) (l : List HierarchyNode) :
    existsNodeL q l = l.any (existsNode q) := by
  induction l with
  | nil => simp
  | cons c cs ih => simp [ih]

theorem existsNode_mk (q) (kd n md sp rel) :
    existsNode q (.mk kd n md sp rel) =
      (q (.mk kd n md sp rel) || existsNodeL q rel) := by
  rw [existsNode]

theorem countNode_mk (q) (kd n md sp rel) :
    countNode q (.mk kd n md sp rel) =
      (if q (.mk kd n md sp rel) then 1 else 0) + countNodeL q rel := by
  rw [countNode]

theorem countNodeL_eq (q : HierarchyNode → Bool) (l : List HierarchyNode) :
    countNodeL q l = (l.map (countNode q)).sum := by
  induction l with
  | nil => simp
  | cons c cs ih => simp [ih]

theorem countNodeL_append (q) (l₁ l₂ : List HierarchyNode) :
    countNodeL q (l₁ ++ l₂) = countNodeL q l₁ + countNodeL q l₂ := by
  simp [countNodeL_eq]

theorem existsNodeL_append (q) (l₁ l₂ : List HierarchyNode) :
    existsNodeL q (l₁ ++ l₂) = (existsNodeL q l₁ || existsNodeL q l₂) := by
  simp [existsNodeL_eq]

theorem remove_kind_node_idem (k nm ns) (t : HierarchyNode) :
    remove_kind_node k nm ns (remove_kind_node k nm ns t) =
      remove_kind_node k nm ns t := by
  induction t using HierarchyNode.strongInd with
  | ih kd n md sp rel ihc =>
    rw [remove_kind_node, remove_kind_node, remove_kind_list_eq, remove_kind_list_eq,
      HierarchyNode.mk.injEq]
    refine ⟨rfl, rfl, rfl, rfl, ?_⟩
    have h1 : (List.map (remove_kind_node k nm ns)
          (rel.filter (fun c => !isNodeId k nm ns c))).filter
            (fun c => !isNodeId k nm ns c) =
        List.map (remove_kind_node k nm ns)
          (rel.filter (fun c => !isNodeId k nm ns c)) := by
      apply List.filter_eq_self.mpr
      intro c hc
      rcases List.mem_map.mp hc with ⟨d, hd, rfl⟩
      have hd2 := (List.mem_filter.mp hd).2
      simpa using hd2
    rw [h1, List.map_map]
    apply List.map_congr_left
    intro c hc
    exact ihc c (List.mem_filter.mp hc).1

theorem relIndep_isNodeId (k nm ns) : RelIndep (isNodeId k nm ns) := by
  intro kd n md sp rel rel'; simp [isNodeId]

/-- Inside a tree processed by `remove_*_node`, the only node that can still
carry the removed identity is the (untouched) root of that tree. -/
theorem existsNode_remove_kind (k nm ns) (t : HierarchyNode) :
    existsNode (isNodeId k nm ns) (remove_kind_node k nm ns t) =
      isNodeId k nm ns t := by
  induction t using HierarchyNode.strongInd with
  | ih kd n md sp rel ihc =>
    rw [remove_kind_node, existsNode_mk]
    have h2 : existsNodeL (isNodeId k nm ns) (remove_kind_list k nm ns rel) = false := by
      rw [remove_kind_list_eq, existsNodeL_eq, List.any_map, List.any_eq_false]
      intro c hc
      have hmem := List.mem_filter.mp hc
      have := ihc c hmem.1
      simp only [Function.comp_apply, this]
      simpa using hmem.2
    rw [h2, Bool.or_false]
    exact relIndep_isNodeId k nm ns kd n md sp _ rel

/-- Removal completeness: after `remove_*_node` has run over a child list, no
node with the removed identity remains anywhere in the resulting forest. -/
theorem remove_kind_list_complete (k nm ns) (l : List HierarchyNode) :
    existsNodeL (isNodeId k nm ns) (remove_kind_list k nm ns l) = false := by
  rw [remove_kind_list_eq, existsNodeL_eq, List.any_map, List.any_eq_false]
  intro c hc
  have hmem := List.mem_filter.mp hc
  simp only [Function.comp_apply, existsNode_remove_kind]
  simpa using hmem.2

@[simp] theorem mapFirst_nil (p f) : mapFirst p f [] = [] := rfl

theorem mapFirst_cons (p f x xs) :
    mapFirst p f (x :: xs) = if p x then f x :: xs else x :: mapFirst p f xs := rfl

theorem mapFirst_of_forall_false (p f) (l : List HierarchyNode)
    (h : ∀ x ∈ l, p x = false) : mapFirst p f l = l := by
  induction l with
  | nil => rfl
  | cons x xs ih =>
    rw [mapFirst_cons, if_neg (by simp [h x (by simp)])]
    exact congrArg _ (ih (fun y hy => h y (by simp [hy])))

/-- If `find?` locates a hit, `mapFirst` rewrites exactly that element. -/
theorem mapFirst_eq_of_find (p f) (l : List HierarchyNode) (r : HierarchyNode)
    (h : l.find? p = some r) :
    ∃ l₁ l₂, l = l₁ ++ r :: l₂ ∧ (∀ x ∈ l₁, p x = false) ∧ p r = true ∧
      mapFirst p f l = l₁ ++ f r :: l₂ := by
  induction l with
  | nil => simp [List.find?] at h
  | cons x xs ih =>
    by_cases hx : p x = true
    · rw [List.find?_cons_of_pos _ hx] at h
      injection h with h
      subst h
      exact ⟨[], xs, by simp, by simp, hx, by simp [mapFirst_cons, hx]⟩
    · simp only [Bool.not_eq_true] at hx
      rw [List.find?_cons_of_neg _ (by simp [hx])] at h
      rcases ih h with ⟨l₁, l₂, hsplit, hfalse, hr, hmap⟩
      refine ⟨x :: l₁, l₂, by simp [hsplit], ?_, hr, ?_⟩
      · intro y hy
        rcases List.mem_cons.mp hy with rfl | hy
        · exact hx
        · exact hfalse y hy
      · rw [mapFirst_cons, if_neg (by simp [hx]), hmap, List.cons_append]

/-- Mapping a function that fixes every element of the list and absorbs the
hit rewrite recovers the original list. -/
theorem map_mapFirst_fixed (p : HierarchyNode → Bool)
    (f g : HierarchyNode → HierarchyNode) (l : List HierarchyNode)
    (hfix : ∀ x ∈ l, g x = x) (habs : ∀ x ∈ l, p x = true → g (f x) = g x) :
    (mapFirst p f l).map g = l := by
  induction l with
  | nil => rfl
  | cons x xs ih =>
    rw [mapFirst_cons]
    by_cases hx : p x = true
    · rw [if_pos hx, List.map_cons, habs x (by simp) hx, hfix x (by simp)]
      have : xs.map g = xs.map id := List.map_congr_left
        (fun y hy => hfix y (by simp [hy]))
      rw [this, List.map_id]
    · rw [if_neg hx, List.map_cons, hfix x (by simp)]
      exact congrArg _ (ih (fun y hy => hfix y (by simp [hy]))
        (fun y hy hp => habs y (by simp [hy]) hp))

/-- Removal never adds nodes: the count of nodes satisfying any
children-independent predicate is monotone under `remove_*_node`. -/
theorem countNode_remove_kind_le (q) (hq : RelIndep q) (k nm ns)
    (t : HierarchyNode) :
    countNode q (remove_kind_node k nm ns t) ≤ countNode q t := by
  induction t using HierarchyNode.strongInd with
  | ih kd n md sp rel ihc =>
    rw [remove_kind_node, countNode_mk, countNode_mk, remove_kind_list_eq,
      countNodeL_eq, countNodeL_eq]
    have hq1 : q (HierarchyNode.mk kd n md sp
        (List.map (remove_kind_node k nm ns)
          (rel.filter (fun c => !isNodeId k nm ns c)))) = q (.mk kd n md sp rel) :=
      hq kd n md sp _ rel
    rw [hq1]
    have h1 : ((rel.filter (fun c => !isNodeId k nm ns c)).map
        (fun c => countNode q (remove_kind_node k nm ns c))).sum ≤
        ((rel.filter (fun c => !isNodeId k nm ns c)).map (countNode q)).sum := by
      apply List.sum_le_sum
      intro c hc
      exact ihc c (List.mem_filter.mp hc).1
    have h2 : ((rel.filter (fun c => !isNodeId k nm ns c)).map (countNode q)).sum ≤
        (rel.map (countNode q)).sum :=
      List.Sublist.sum_le_sum (List.Sublist.map _ (List.filter_sublist rel))
        (fun x _ => Nat.zero_le _)
    simp only [List.map_map]
    have h1' : ((rel.filter (fun c => !isNodeId k nm ns c)).map
        ((countNode q) ∘ (remove_kind_node k nm ns))).sum ≤
        ((rel.filter (fun c => !isNodeId k nm ns c)).map (countNode q)).sum := h1
    omega

/-! ### Identity fields of the freshly built nodes -/

@[simp] theorem extendRel_kind (l) (c : HierarchyNode) : (c.extendRel l).kind = c.kind := by
  cases c; rfl

@[simp] theorem extendRel_name (l) (c : HierarchyNode) : (c.extendRel l).name = c.name := by
  cases c; rfl

@[simp] theorem extendRel_mdata (l) (c : HierarchyNode) : (c.extendRel l).mdata = c.mdata := by
  cases c; rfl

@[simp] theorem extendRel_spec (l) (c : HierarchyNode) : (c.extendRel l).spec = c.spec := by
  cases c; rfl

@[simp] theorem extendRel_relatives (l) (c : HierarchyNode) :
    (c.extendRel l).relatives = c.relatives ++ l := by
  cases c; rfl

@[simp] theorem new_pod_kind (pod) : (new_pod pod).kind = .Pod := rfl
@[simp] theorem new_pod_name (pod) : (new_pod pod).name = pod.mdata.name.getD "" := rfl
@[simp] theorem new_pod_mdata (pod) : (new_pod pod).mdata = pod.mdata := rfl
@[simp] theorem new_pod_relatives (pod) : (new_pod pod).relatives = [] := rfl

@[simp] theorem new_service_kind (s) : (new_service s).kind = .Service := rfl
@[simp] theorem new_service_name (s) : (new_service s).name = s.mdata.name.getD "" := rfl
@[simp] theorem new_service_mdata (s) : (new_service s).mdata = s.mdata := rfl

theorem service_with_pods_id_fields (s pods) :
    (service_with_pods s pods).kind = .Service ∧
    (service_with_pods s pods).name = s.mdata.name.getD "" ∧
    (service_with_pods s pods).mdata = s.mdata ∧
    (service_with_pods s pods).spec = (new_service s).spec := by
  rw [service_with_pods]
  rcases hs : (new_service s).spec with _ | sp
  · simp [hs]
  · rcases sp with _ | sel | _ | rules <;> simp [hs]

theorem isNodeId_service_with_pods (s pods) :
    isNodeId .Service (s.mdata.name.getD "") s.mdata.nspace
      (service_with_pods s pods) = true := by
  obtain ⟨h1, h2, h3, _⟩ := service_with_pods_id_fields s pods
  simp [isNodeId, h1, h2, h3]

theorem isNodeId_new_pod (pod) :
    isNodeId .Pod (pod.mdata.name.getD "") pod.mdata.nspace (new_pod pod) = true := by
  simp [isNodeId]

@[simp] theorem build_route_node_kind (r ss ps) :
    (build_route_node r ss ps).kind = .HTTPRoute := rfl
@[simp] theorem build_route_node_name (r ss ps) :
    (build_route_node r ss ps).name = r.mdata.name.getD "" := rfl
@[simp] theorem build_route_node_mdata (r ss ps) :
    (build_route_node r ss ps).mdata = r.mdata := rfl

theorem isNodeId_build_route_node (r ss ps) :
    isNodeId .HTTPRoute (r.mdata.name.getD "") r.mdata.nspace
      (build_route_node r ss ps) = true := by
  simp [isNodeId]

/-- Appending children that all carry the removed identity is invisible to the
removal pass. -/
theorem remove_kind_node_extendRel (k nm ns) (c : HierarchyNode)
    (l : List HierarchyNode) (h : ∀ x ∈ l, isNodeId k nm ns x = true) :
    remove_kind_node k nm ns (c.extendRel l) = remove_kind_node k nm ns c := by
  cases c with
  | mk kd n md sp rel =>
    show remove_kind_node k nm ns (.mk kd n md sp (rel ++ l)) = _
    rw [remove_kind_node, remove_kind_node, remove_kind_list_eq, remove_kind_list_eq,
      List.filter_append]
    have : l.filter (fun c => !isNodeId k nm ns c) = [] := by
      rw [List.filter_eq_nil_iff]
      intro x hx
      simp [h x hx]
    rw [this, List.append_nil]

/-! ### Removal absorbs each attach step -/

/-- Removing the service again after `attach_service` undoes exactly what the
attach added. -/
theorem remove_attach_service (service : ServiceV) (pods : List PodV)
    (n : HierarchyNode) :
    remove_kind_node .Service (service.mdata.name.getD "") service.mdata.nspace
      (attach_service service pods n) =
    remove_kind_node .Service (service.mdata.name.getD "") service.mdata.nspace n := by
  cases n with
  | mk kd nm md sp rel =>
    rw [attach_service]
    simp only [HierarchyNode.relatives_mk, HierarchyNode.kind_mk, HierarchyNode.name_mk,
      HierarchyNode.mdata_mk, HierarchyNode.spec_mk]
    rw [remove_kind_node, remove_kind_node, remove_kind_list_eq, remove_kind_list_eq,
      List.filter_append]
    have hopt : (if rel.any (is_referencing_route (service.mdata.name.getD ""))
          then ([] : List HierarchyNode)
          else [service_with_pods service pods]).filter
        (fun c => !isNodeId .Service (service.mdata.name.getD "")
            service.mdata.nspace c) = [] := by
      by_cases hflag : rel.any (is_referencing_route (service.mdata.name.getD "")) = true
      · simp [hflag]
      · simp only [Bool.not_eq_true] at hflag
        simp [hflag, isNodeId_service_with_pods]
    rw [hopt, List.append_nil]
    have hfilter : (rel.map (fun c =>
          if is_referencing_route (service.mdata.name.getD "") c
          then c.extendRel [service_with_pods service pods]
          else c)).filter
        (fun c => !isNodeId .Service (service.mdata.name.getD "")
            service.mdata.nspace c) =
        (rel.filter (fun c => !isNodeId .Service (service.mdata.name.getD "")
            service.mdata.nspace c)).map (fun c =>
          if is_referencing_route (service.mdata.name.getD "") c
          then c.extendRel [service_with_pods service pods]
          else c) := by
      rw [List.filter_map]
      apply congrArg
      apply List.filter_congr
      intro c _
      by_cases hc : is_referencing_route (service.mdata.name.getD "") c = true
      · simp [Function.comp, hc, isNodeId]
      · simp [Function.comp, hc]
    rw [hfilter, List.map_map]
    refine congrArg (HierarchyNode.mk kd nm md sp) ?_
    apply List.map_congr_left
    intro c _
    simp only [Function.comp_apply]
    by_cases hc : is_referencing_route (service.mdata.name.getD "") c = true
    · rw [if_pos hc]
      exact remove_kind_node_extendRel _ _ _ _ _
        (fun x hx => by
          rcases List.mem_singleton.mp hx with rfl
          exact isNodeId_service_with_pods service pods)
    · rw [if_neg hc]

/-- Removing the route again after `attach_route` undoes exactly what the
attach added. -/
theorem remove_attach_route (httproute : RouteV) (services : List ServiceV)
    (pods : List PodV) (n : HierarchyNode) :
    remove_kind_node .HTTPRoute (httproute.mdata.name.getD "") httproute.mdata.nspace
      (attach_route httproute services pods n) =
    remove_kind_node .HTTPRoute (httproute.mdata.name.getD "")
      httproute.mdata.nspace n := by
  rw [attach_route]
  exact remove_kind_node_extendRel _ _ _ _ _
    (fun x hx => by
      rcases List.mem_singleton.mp hx with rfl
      exact isNodeId_build_route_node httproute services pods)

/-! ### Lemmas about `add_pod_to_matching_services` -/

@[simp] theorem add_pod_list_nil (pod lb b) : add_pod_list pod lb [] b = ([], b) := by
  rw [add_pod_list]

theorem add_pod_list_cons (pod lb c cs b) :
    add_pod_list pod lb (c :: cs) b =
      ((add_pod_to_matching_services pod lb c b).1 ::
        (add_pod_list pod lb cs (add_pod_to_matching_services pod lb c b).2).1,
       (add_pod_list pod lb cs (add_pod_to_matching_services pod lb c b).2).2) := by
  rw [add_pod_list]

theorem add_pod_node_eq (pod lb k n md sp rel b) :
    add_pod_to_matching_services pod lb (.mk k n md sp rel) b =
      (.mk k n md sp
        ((add_pod_list pod lb rel
            (if pod_matches_service pod lb (.mk k n md sp rel) then true else b)).1 ++
          (if pod_matches_service pod lb (.mk k n md sp rel)
           then [new_pod pod] else [])),
       (add_pod_list pod lb rel
          (if pod_matches_service pod lb (.mk k n md sp rel) then true else b)).2) := by
  rw [add_pod_to_matching_services]

theorem relIndep_pod_matches_service (pod lb) :
    RelIndep (pod_matches_service pod lb) := by
  intro kd n md sp rel rel'
  simp [pod_matches_service]

theorem add_pod_fst_fields (pod lb) (c : HierarchyNode) (b : Bool) :
    ((add_pod_to_matching_services pod lb c b).1.kind = c.kind ∧
     (add_pod_to_matching_services pod lb c b).1.name = c.name ∧
     (add_pod_to_matching_services pod lb c b).1.mdata = c.mdata ∧
     (add_pod_to_matching_services pod lb c b).1.spec = c.spec) := by
  cases c with
  | mk k n md sp rel => rw [add_pod_node_eq]; simp

/-- Removing the pod again after `add_pod_to_matching_services` undoes exactly
what the walk added. -/
theorem remove_add_pod (pod : PodV) (lb : Labels) (t : HierarchyNode) : ∀ b,
    remove_kind_node .Pod (pod.mdata.name.getD "") pod.mdata.nspace
      ((add_pod_to_matching_services pod lb t b).1) =
    remove_kind_node .Pod (pod.mdata.name.getD "") pod.mdata.nspace t := by
  induction t using HierarchyNode.strongInd with
  | ih k n md sp rel ihc =>
    intro b
    rw [add_pod_node_eq]
    rw [remove_kind_node, remove_kind_node, remove_kind_list_eq, remove_kind_list_eq]
    rw [List.filter_append]
    have hopt : (if pod_matches_service pod lb (.mk k n md sp rel)
          then [new_pod pod] else ([] : List HierarchyNode)).filter
        (fun c => !isNodeId .Pod (pod.mdata.name.getD "") pod.mdata.nspace c) = [] := by
      by_cases hm : pod_matches_service pod lb (.mk k n md sp rel) = true
      · simp [hm, isNodeId_new_pod]
      · simp only [Bool.not_eq_true] at hm
        simp [hm]
    rw [hopt, List.append_nil]
    clear hopt
    refine congrArg (HierarchyNode.mk k n md sp) ?_
    -- list level: processing the original children is invisible to removal
    generalize (if pod_matches_service pod lb (.mk k n md sp rel) then true else b) = b1
    induction rel generalizing b1 with
    | nil => rfl
    | cons c cs ihl =>
      rw [add_pod_list_cons]
      have hfields := add_pod_fst_fields pod lb c (b1)
      have hid : isNodeId .Pod (pod.mdata.name.getD "") pod.mdata.nspace
          ((add_pod_to_matching_services pod lb c b1).1) =
          isNodeId .Pod (pod.mdata.name.getD "") pod.mdata.nspace c := by
        simp [isNodeId, hfields.1, hfields.2.1, hfields.2.2.1]
      rw [List.filter_cons, List.filter_cons, hid]
      by_cases hc : isNodeId .Pod (pod.mdata.name.getD "") pod.mdata.nspace c = true
      · rw [if_neg (by simp [hc]), if_neg (by simp [hc])]
        exact ihl (fun d hd => ihc d (by simp [hd]))
          ((add_pod_to_matching_services pod lb c b1).2)
      · simp only [Bool.not_eq_true] at hc
        rw [if_pos (by simp [hc]), if_pos (by simp [hc]), List.map_cons, List.map_cons,
          ihc c (by simp) b1]
        exact congrArg _ (ihl (fun d hd => ihc d (by simp [hd]))
          ((add_pod_to_matching_services pod lb c b1).2))

/-- Removing the pod again after `attach_pod` undoes exactly what the attach
added. -/
theorem remove_attach_pod (pod : PodV) (n : HierarchyNode) :
    remove_kind_node .Pod (pod.mdata.name.getD "") pod.mdata.nspace
      (attach_pod pod n) =
    remove_kind_node .Pod (pod.mdata.name.getD "") pod.mdata.nspace n := by
  rw [attach_pod]
  by_cases hflag : (add_pod_to_matching_services pod pod.labelsD n false).2 = true
  · rw [if_pos hflag]
    exact remove_add_pod pod pod.labelsD n false
  · rw [if_neg hflag]
    rw [remove_kind_node_extendRel _ _ _ _ _ (fun x hx => by
      rcases List.mem_singleton.mp hx with rfl
      exact isNodeId_new_pod pod)]
    exact remove_add_pod pod pod.labelsD n false

/-- The `pod_added` flag returned by the walk: its input value or-ed with
"some matching service exists in the subtree". -/
theorem add_pod_snd (pod lb) (t : HierarchyNode) : ∀ b,
    (add_pod_to_matching_services pod lb t b).2 =
      (b || existsNode (pod_matches_service pod lb) t) := by
  induction t using HierarchyNode.strongInd with
  | ih k n md sp rel ihc =>
    intro b
    rw [add_pod_node_eq, existsNode_mk]
    have hlist : ∀ (b1 : Bool),
        (add_pod_list pod lb rel b1).2 =
          (b1 || existsNodeL (pod_matches_service pod lb) rel) := by
      clear b
      induction rel with
      | nil => intro b1; simp
      | cons c cs ihl =>
        intro b1
        rw [add_pod_list_cons]
        simp only
        rw [ihl (fun d hd => ihc d (by simp [hd])),
          ihc c (by simp) b1, existsNodeL_cons, Bool.or_assoc]
    rw [hlist]
    by_cases hm : pod_matches_service pod lb (.mk k n md sp rel) = true
    · simp [hm]
    · simp only [Bool.not_eq_true] at hm
      simp [hm]

/-- Each matching service node in the subtree receives exactly one copy of the
pod: the walk increases the pod-identity count by the matching-service count. -/
theorem countNode_add_pod (pod lb) (t : HierarchyNode) : ∀ b,
    countNode (isNodeId .Pod (pod.mdata.name.getD "") pod.mdata.nspace)
      ((add_pod_to_matching_services pod lb t b).1) =
      countNode (isNodeId .Pod (pod.mdata.name.getD "") pod.mdata.nspace) t +
        countNode (pod_matches_service pod lb) t := by
  induction t using HierarchyNode.strongInd with
  | ih k n md sp rel ihc =>
    intro b
    rw [add_pod_node_eq]
    rw [countNode_mk, countNode_mk, countNode_mk, countNodeL_append]
    have hroot : (if isNodeId .Pod (pod.mdata.name.getD "") pod.mdata.nspace
          (HierarchyNode.mk k n md sp
            ((add_pod_list pod lb rel
              (if pod_matches_service pod lb (.mk k n md sp rel) then true else b)).1 ++
              (if pod_matches_service pod lb (.mk k n md sp rel)
               then [new_pod pod] else []))) = true then 1 else 0) =
        (if isNodeId .Pod (pod.mdata.name.getD "") pod.mdata.nspace
          (HierarchyNode.mk k n md sp rel) = true then 1 else 0) := by
      rw [relIndep_isNodeId .Pod (pod.mdata.name.getD "") pod.mdata.nspace
        k n md sp _ rel]
    rw [hroot]
    have hopt : countNodeL (isNodeId .Pod (pod.mdata.name.getD "") pod.mdata.nspace)
        (if pod_matches_service pod lb (.mk k n md sp rel)
         then [new_pod pod] else []) =
        (if pod_matches_service pod lb (.mk k n md sp rel) then 1 else 0) := by
      by_cases hm : pod_matches_service pod lb (.mk k n md sp rel) = true
      · rw [if_pos hm, if_pos hm, countNodeL_cons, countNodeL_nil]
        have h1 : countNode (isNodeId .Pod (pod.mdata.name.getD "")
            pod.mdata.nspace) (new_pod pod) = 1 := by
          have hid := isNodeId_new_pod pod
          rw [new_pod] at hid ⊢
          rw [countNode_mk, if_pos hid, countNodeL_nil]
        rw [h1]
      · rw [if_neg hm, if_neg hm, countNodeL_nil]
    rw [hopt]
    have hlist : ∀ (b1 : Bool),
        countNodeL (isNodeId .Pod (pod.mdata.name.getD "") pod.mdata.nspace)
          ((add_pod_list pod lb rel b1).1) =
          countNodeL (isNodeId .Pod (pod.mdata.name.getD "") pod.mdata.nspace) rel +
            countNodeL (pod_matches_service pod lb) rel := by
      clear hroot hopt b
      induction rel with
      | nil => intro b1; simp
      | cons c cs ihl =>
        intro b1
        rw [add_pod_list_cons]
        simp only
        rw [countNodeL_cons, countNodeL_cons, countNodeL_cons,
          ihl (fun d hd => ihc d (by simp [hd])), ihc c (by simp) b1]
        omega
    rw [hlist]
    omega

/-- Generic shape of all three apply handlers: remove everywhere, then attach
inside the first matching root. If a second removal pass absorbs the attach
(`rem ∘ f = rem` pointwise) and removal is idempotent, the handler is a
projection. -/
theorem update_fixed_point (p : HierarchyNode → Bool)
    (f rem : HierarchyNode → HierarchyNode)
    (hidem : ∀ t, rem (rem t) = rem t)
    (habs : ∀ t, rem (f t) = rem t)
    (h : List HierarchyNode) :
    mapFirst p f ((mapFirst p f (h.map rem)).map rem) = mapFirst p f (h.map rem) := by
  have hkey : (mapFirst p f (h.map rem)).map rem = h.map rem := by
    apply map_mapFirst_fixed
    · intro x hx
      rcases List.mem_map.mp hx with ⟨y, _, rfl⟩
      exact hidem y
    · intro x _ _
      exact habs x
  rw [hkey]

/-! ### More traversal lemmas -/

/-- `existsNode` is monotone in the predicate. -/
theorem existsNode_mono (q q' : HierarchyNode → Bool)
    (hmono : ∀ c, q c = true → q' c = true) (t : HierarchyNode)
    (hfree : existsNode q' t = false) : existsNode q t = false := by
  induction t using HierarchyNode.strongInd with
  | ih k n md sp rel ihc =>
    rw [existsNode_mk] at hfree ⊢
    rw [Bool.or_eq_false_iff] at hfree ⊢
    constructor
    · by_cases hq : q (.mk k n md sp rel) = true
      · exact absurd (hmono _ hq) (by simp [hfree.1])
      · simpa using hq
    · have h2 := hfree.2
      clear hfree
      induction rel with
      | nil => simp
      | cons c cs ihl =>
        rw [existsNodeL_cons, Bool.or_eq_false_iff] at h2 ⊢
        exact ⟨ihc c (by simp) h2.1,
          ihl (fun d hd => ihc d (by simp [hd])) h2.2⟩

theorem existsNode_extendRel (q) (c : HierarchyNode) (l : List HierarchyNode) :
    existsNode q (c.extendRel l) =
      (q (c.extendRel l) || existsNodeL q c.relatives || existsNodeL q l) := by
  cases c with
  | mk k n md sp rel =>
    show existsNode q (.mk k n md sp (rel ++ l)) = _
    rw [existsNode_mk, existsNodeL_append]
    simp [HierarchyNode.extendRel, Bool.or_assoc]

theorem countNode_eq_zero_iff (q) (t : HierarchyNode) :
    countNode q t = 0 ↔ existsNode q t = false := by
  induction t using HierarchyNode.strongInd with
  | ih k n md sp rel ihc =>
    rw [countNode_mk, existsNode_mk, Nat.add_eq_zero, Bool.or_eq_false_iff]
    constructor
    · rintro ⟨h1, h2⟩
      refine ⟨by by_cases hq : q (.mk k n md sp rel) = true <;> simp_all, ?_⟩
      clear h1
      induction rel with
      | nil => simp
      | cons c cs ihl =>
        rw [countNodeL_cons, Nat.add_eq_zero] at h2
        rw [existsNodeL_cons, Bool.or_eq_false_iff]
        exact ⟨(ihc c (by simp)).mp h2.1,
          ihl (fun d hd => ihc d (by simp [hd])) h2.2⟩
    · rintro ⟨h1, h2⟩
      refine ⟨by simp [h1], ?_⟩
      clear h1
      induction rel with
      | nil => simp
      | cons c cs ihl =>
        rw [existsNodeL_cons, Bool.or_eq_false_iff] at h2
        rw [countNodeL_cons, Nat.add_eq_zero]
        exact ⟨(ihc c (by simp)).mpr h2.1,
          ihl (fun d hd => ihc d (by simp [hd])) h2.2⟩

theorem countNode_extendRel (q) (hq : RelIndep q) (c : HierarchyNode)
    (l : List HierarchyNode) :
    countNode q (c.extendRel l) = countNode q c + countNodeL q l := by
  cases c with
  | mk k n md sp rel =>
    show countNode q (.mk k n md sp (rel ++ l)) = _
    rw [countNode_mk, countNode_mk, countNodeL_append, hq k n md sp (rel ++ l) rel]
    omega

/-- A tree with no occurrence of the identity is untouched by the removal. -/
theorem remove_kind_node_id_of_free (k nm ns) (t : HierarchyNode)
    (hfree : existsNode (isNodeId k nm ns) t = false) :
    remove_kind_node k nm ns t = t := by
  induction t using HierarchyNode.strongInd with
  | ih kd n md sp rel ihc =>
    rw [existsNode_mk, Bool.or_eq_false_iff] at hfree
    rw [remove_kind_node, remove_kind_list_eq]
    refine congrArg (HierarchyNode.mk kd n md sp) ?_
    have h2 := hfree.2
    clear hfree
    induction rel with
    | nil => simp
    | cons c cs ihl =>
      rw [existsNodeL_cons, Bool.or_eq_false_iff] at h2
      have hcid : isNodeId k nm ns c = false := by
        cases c with
        | mk k' n' md' sp' rel' =>
          have := h2.1
          rw [existsNode_mk, Bool.or_eq_false_iff] at this
          exact this.1
      rw [List.filter_cons, if_pos (by simp [hcid]), List.map_cons,
        ihc c (by simp) h2.1]
      exact congrArg _ (ihl (fun d hd => ihc d (by simp [hd])) h2.2)

/-- Survivors at the top level of a removal pass never carry the removed
identity. -/
theorem isNodeId_of_mem_remove_kind_list (k nm ns) (l : List HierarchyNode)
    (x : HierarchyNode) (hx : x ∈ remove_kind_list k nm ns l) :
    isNodeId k nm ns x = false := by
  rw [remove_kind_list_eq] at hx
  rcases List.mem_map.mp hx with ⟨d, hd, rfl⟩
  have := (List.mem_filter.mp hd).2
  simpa using this

/-! ### Lemmas about the query predicates -/

theorem svcWithPodChild_extendRel (sname sns pname) (c x : HierarchyNode)
    (hx : (x.kind == ResourceKind.Pod && x.name == pname) = false) :
    svcWithPodChild sname sns pname (c.extendRel [x]) =
      svcWithPodChild sname sns pname c := by
  cases c with
  | mk k n md sp rel =>
    simp only [svcWithPodChild, isNodeId, HierarchyNode.extendRel,
      HierarchyNode.kind_mk, HierarchyNode.name_mk, HierarchyNode.mdata_mk,
      HierarchyNode.relatives_mk, List.any_append, List.any_cons, List.any_nil,
      hx, Bool.or_false]

theorem routeWithSvcChild_extendRel (rname rns sname) (c x : HierarchyNode)
    (hx : (x.kind == ResourceKind.Service && x.name == sname) = false) :
    routeWithSvcChild rname rns sname (c.extendRel [x]) =
      routeWithSvcChild rname rns sname c := by
  cases c with
  | mk k n md sp rel =>
    simp only [routeWithSvcChild, isNodeId, HierarchyNode.extendRel,
      HierarchyNode.kind_mk, HierarchyNode.name_mk, HierarchyNode.mdata_mk,
      HierarchyNode.relatives_mk, List.any_append, List.any_cons, List.any_nil,
      hx, Bool.or_false]

/-- The children of `service_with_pods` are always a list of fresh Pod
nodes. -/
theorem service_with_pods_relatives_shape (s : ServiceV) (pods : List PodV) :
    ∃ ps : List PodV, (service_with_pods s pods).relatives = ps.map new_pod := by
  rw [service_with_pods]
  rcases hs : (new_service s).spec with _ | sp
  · exact ⟨[], rfl⟩
  · rcases sp with _ | sel | _ | rules
    · exact ⟨[], rfl⟩
    · refine ⟨pods.filter (fun pod => pod.mdata.nspace == s.mdata.nspace &&
        selectors_match (sel.getD []) pod.labelsD), ?_⟩
      rw [extendRel_relatives]
      simp [new_service]
    · exact ⟨[], rfl⟩
    · exact ⟨[], rfl⟩

theorem existsNode_svcq_new_pod (sname sns pname) (p : PodV) :
    existsNode (svcWithPodChild sname sns pname) (new_pod p) = false := by
  rw [new_pod, existsNode_mk]
  simp [svcWithPodChild, isNodeId]

theorem existsNode_routeq_new_pod (rname rns sname) (p : PodV) :
    existsNode (routeWithSvcChild rname rns sname) (new_pod p) = false := by
  rw [new_pod, existsNode_mk]
  simp [routeWithSvcChild, isNodeId]

theorem existsNode_svcq_swp (sname sns pname) (s : ServiceV) (pods : List PodV) :
    existsNode (svcWithPodChild sname sns pname) (service_with_pods s pods) =
      svcWithPodChild sname sns pname (service_with_pods s pods) := by
  rcases service_with_pods_relatives_shape s pods with ⟨ps, hps⟩
  cases hsw : service_with_pods s pods with
  | mk k n md sp rel =>
    rw [existsNode_mk]
    have hrel : rel = ps.map new_pod := by
      have := hps
      rw [hsw] at this
      simpa using this
    subst hrel
    have : existsNodeL (svcWithPodChild sname sns pname) (ps.map new_pod) = false := by
      rw [existsNodeL_eq, List.any_eq_false]
      intro c hc
      rcases List.mem_map.mp hc with ⟨p, _, rfl⟩
      simp [existsNode_svcq_new_pod]
    rw [this, Bool.or_false]

theorem existsNode_routeq_swp (rname rns sname) (s : ServiceV) (pods : List PodV) :
    existsNode (routeWithSvcChild rname rns sname) (service_with_pods s pods) =
      false := by
  rcases service_with_pods_relatives_shape s pods with ⟨ps, hps⟩
  cases hsw : service_with_pods s pods with
  | mk k n md sp rel =>
    rw [existsNode_mk]
    have hrel : rel = ps.map new_pod := by
      have := hps
      rw [hsw] at this
      simpa using this
    subst hrel
    have h1 : existsNodeL (routeWithSvcChild rname rns sname) (ps.map new_pod) = false := by
      rw [existsNodeL_eq, List.any_eq_false]
      intro c hc
      rcases List.mem_map.mp hc with ⟨p, _, rfl⟩
      simp [existsNode_routeq_new_pod]
    rw [h1, Bool.or_false]
    have hk : k = ResourceKind.Service := by
      have := service_with_pods_id_fields s pods
      rw [hsw] at this
      simpa using this.1
    subst hk
    simp [routeWithSvcChild, isNodeId]

theorem existsNode_eq (q) (t : HierarchyNode) :
    existsNode q t = (q t || existsNodeL q t.relatives) := by
  cases t with
  | mk k n md sp rel => rw [existsNode_mk]; rfl

/-- What `attach_service` adds is visible to the pod-under-service query
exactly through the fresh `service_with_pods` copy. -/
theorem existsNode_svcq_attach_service (service : ServiceV) (pods : List PodV)
    (pname : String) (r : HierarchyNode) (hk : r.kind ≠ .Service) :
    existsNode (svcWithPodChild (service.mdata.name.getD "")
        service.mdata.nspace pname) (attach_service service pods r) =
      (existsNode (svcWithPodChild (service.mdata.name.getD "")
          service.mdata.nspace pname) r ||
        svcWithPodChild (service.mdata.name.getD "") service.mdata.nspace pname
          (service_with_pods service pods)) := by
  cases r with
  | mk k n md sp rel =>
    have hk' : (k == ResourceKind.Service) = false := by
      simpa using hk
    have hswp_not_pod : ((service_with_pods service pods).kind ==
        ResourceKind.Pod && (service_with_pods service pods).name == pname) = false := by
      have := (service_with_pods_id_fields service pods).1
      simp [this]
    rw [attach_service]
    simp only [HierarchyNode.relatives_mk, HierarchyNode.kind_mk,
      HierarchyNode.name_mk, HierarchyNode.mdata_mk, HierarchyNode.spec_mk]
    rw [existsNode_mk, existsNode_mk, existsNodeL_append]
    have hroot1 : svcWithPodChild (service.mdata.name.getD "")
        service.mdata.nspace pname (HierarchyNode.mk k n md sp
          ((rel.map fun c =>
            if is_referencing_route (service.mdata.name.getD "") c
            then c.extendRel [service_with_pods service pods] else c) ++
            (if rel.any (is_referencing_route (service.mdata.name.getD ""))
             then [] else [service_with_pods service pods]))) = false := by
      simp [svcWithPodChild, isNodeId, hk']
    have hroot2 : svcWithPodChild (service.mdata.name.getD "")
        service.mdata.nspace pname (HierarchyNode.mk k n md sp rel) = false := by
      simp [svcWithPodChild, isNodeId, hk']
    rw [hroot1, hroot2, Bool.false_or, Bool.false_or]
    have hW : existsNodeL (svcWithPodChild (service.mdata.name.getD "")
        service.mdata.nspace pname)
        (rel.map fun c =>
          if is_referencing_route (service.mdata.name.getD "") c
          then c.extendRel [service_with_pods service pods] else c) =
        (existsNodeL (svcWithPodChild (service.mdata.name.getD "")
          service.mdata.nspace pname) rel ||
          (rel.any (is_referencing_route (service.mdata.name.getD "")) &&
            svcWithPodChild (service.mdata.name.getD "") service.mdata.nspace
              pname (service_with_pods service pods))) := by
      clear hroot1 hroot2 hk
      induction rel with
      | nil => simp
      | cons c cs ih =>
        rw [List.map_cons, existsNodeL_cons, existsNodeL_cons, ih, List.any_cons]
        by_cases hc : is_referencing_route (service.mdata.name.getD "") c = true
        · rw [if_pos hc, hc]
          rw [existsNode_extendRel, svcWithPodChild_extendRel _ _ _ _ _ hswp_not_pod]
          rw [existsNodeL_cons, existsNodeL_nil, existsNode_svcq_swp, Bool.or_false]
          rw [existsNode_eq _ c]
          cases svcWithPodChild (service.mdata.name.getD "") service.mdata.nspace
              pname (service_with_pods service pods) <;>
            cases existsNodeL (svcWithPodChild (service.mdata.name.getD "")
              service.mdata.nspace pname) cs <;> simp
        · rw [if_neg hc]
          simp only [Bool.not_eq_true] at hc
          rw [hc, Bool.false_or, Bool.or_assoc]
    rw [hW]
    have hO : existsNodeL (svcWithPodChild (service.mdata.name.getD "")
        service.mdata.nspace pname)
        (if rel.any (is_referencing_route (service.mdata.name.getD ""))
         then [] else [service_with_pods service pods]) =
        (!(rel.any (is_referencing_route (service.mdata.name.getD ""))) &&
          svcWithPodChild (service.mdata.name.getD "") service.mdata.nspace
            pname (service_with_pods service pods)) := by
      by_cases hflag : rel.any (is_referencing_route (service.mdata.name.getD "")) = true
      · rw [if_pos hflag, hflag]
        simp
      · simp only [Bool.not_eq_true] at hflag
        rw [if_neg (by simp [hflag]), hflag]
        rw [existsNodeL_cons, existsNodeL_nil, existsNode_svcq_swp, Bool.or_false]
        simp
    rw [hO]
    cases rel.any (is_referencing_route (service.mdata.name.getD "")) <;>
      cases svcWithPodChild (service.mdata.name.getD "") service.mdata.nspace
        pname (service_with_pods service pods) <;> simp

/-- What `attach_route` adds is visible to the service-under-route query
exactly through the fresh `build_route_node`. -/
theorem existsNode_routeq_attach_route (route : RouteV) (services : List ServiceV)
    (pods : List PodV) (sname : String) (r : HierarchyNode) :
    existsNode (routeWithSvcChild (route.mdata.name.getD "")
        route.mdata.nspace sname) (attach_route route services pods r) =
      (existsNode (routeWithSvcChild (route.mdata.name.getD "")
          route.mdata.nspace sname) r ||
        routeWithSvcChild (route.mdata.name.getD "") route.mdata.nspace sname
          (build_route_node route services pods)) := by
  have hbrn : ((build_route_node route services pods).kind ==
      ResourceKind.Service &&
      (build_route_node route services pods).name == sname) = false := by
    simp
  rw [attach_route, existsNode_extendRel,
    routeWithSvcChild_extendRel _ _ _ _ _ hbrn]
  rw [existsNodeL_cons, existsNodeL_nil, Bool.or_false]
  rw [existsNode_eq _ (build_route_node route services pods)]
  have hrel : existsNodeL (routeWithSvcChild (route.mdata.name.getD "")
      route.mdata.nspace sname) (build_route_node route services pods).relatives =
      false := by
    rw [build_route_node]
    simp only [HierarchyNode.relatives_mk]
    rw [existsNodeL_eq, List.any_eq_false]
    intro c hc
    rcases List.mem_map.mp hc with ⟨s, _, rfl⟩
    simp [existsNode_routeq_swp]
  rw [hrel, Bool.or_false, ← existsNode_eq]

/-- After removing the service from a non-Service root, no node inside has
the service's identity, so no node satisfies the pod-under-service query. -/
theorem existsNode_svcq_remove_service (sname : String) (sns : Option String)
    (pname : String) (t : HierarchyNode) (ht : t.kind ≠ .Service) :
    existsNode (svcWithPodChild sname sns pname)
      (remove_service_node sname sns t) = false := by
  apply existsNode_mono _ (isNodeId .Service sname sns)
  · intro c hc
    rw [svcWithPodChild, Bool.and_eq_true] at hc
    exact hc.1
  · rw [remove_service_node, existsNode_remove_kind]
    have hk : (t.kind == ResourceKind.Service) = false := by simpa using ht
    simp [isNodeId, hk]

/-- After removing the route from a non-HTTPRoute root, no node inside has
the route's identity, so no node satisfies the service-under-route query. -/
theorem existsNode_routeq_remove_route (rname : String) (rns : Option String)
    (sname : String) (t : HierarchyNode) (ht : t.kind ≠ .HTTPRoute) :
    existsNode (routeWithSvcChild rname rns sname)
      (remove_httproute_node rname rns t) = false := by
  apply existsNode_mono _ (isNodeId .HTTPRoute rname rns)
  · intro c hc
    rw [routeWithSvcChild, Bool.and_eq_true] at hc
    exact hc.1
  · rw [remove_httproute_node, existsNode_remove_kind]
    have hk : (t.kind == ResourceKind.HTTPRoute) = false := by simpa using ht
    simp [isNodeId, hk]

/-- When the service object carries a spec, the children of
`service_with_pods` are exactly the same-namespace selector-matching pods. -/
theorem service_with_pods_relatives_of_spec (s : ServiceV) (pods : List PodV)
    (sp : SvcSpecV) (hs : s.spec = some sp) :
    (service_with_pods s pods).relatives =
      (pods.filter (fun pod => pod.mdata.nspace == s.mdata.nspace &&
        selectors_match (sp.selector.getD []) pod.labelsD)).map new_pod := by
  rw [service_with_pods]
  rcases hspec : (new_service s).spec with _ | spc
  · rw [new_service] at hspec
    simp [hs] at hspec
  · rcases spc with _ | sel | _ | rules
    · rw [new_service] at hspec
      simp [hs] at hspec
    · have hsel : sel = sp.selector := by
        rw [new_service] at hspec
        simp [hs] at hspec
        first
        | exact hspec
        | exact hspec.symm
      subst hsel
      rw [extendRel_relatives]
      simp [new_service]
    · rw [new_service] at hspec
      simp [hs] at hspec
    · rw [new_service] at hspec
      simp [hs] at hspec

/-- The pod-under-service query holds of the fresh `service_with_pods` node
iff some pod of the snapshot lives in the service's namespace, matches the
selector, and bears the queried name. -/
theorem svcq_swp_iff (s : ServiceV) (pods : List PodV) (sp : SvcSpecV)
    (pname : String) (hs : s.spec = some sp) :
    svcWithPodChild (s.mdata.name.getD "") s.mdata.nspace pname
        (service_with_pods s pods) = true ↔
      ∃ p ∈ pods, p.mdata.nspace = s.mdata.nspace ∧
        selectors_match (sp.selector.getD []) p.labelsD = true ∧
        p.mdata.name.getD "" = pname := by
  rw [svcWithPodChild, isNodeId_service_with_pods, Bool.true_and,
    service_with_pods_relatives_of_spec s pods sp hs, List.any_eq_true]
  constructor
  · rintro ⟨d, hd, hq⟩
    rcases List.mem_map.mp hd with ⟨p, hpmem, rfl⟩
    rw [List.mem_filter, Bool.and_eq_true] at hpmem
    simp only [new_pod_kind, new_pod_name, Bool.and_eq_true, beq_iff_eq] at hq
    refine ⟨p, hpmem.1, ?_, hpmem.2.2, hq.2⟩
    have := hpmem.2.1
    simpa using this
  · rintro ⟨p, hp, h1, h2, h3⟩
    refine ⟨new_pod p, List.mem_map_of_mem _ ?_, ?_⟩
    · rw [List.mem_filter, Bool.and_eq_true]
      exact ⟨hp, by simp [h1], h2⟩
    · simp only [new_pod_kind, new_pod_name, Bool.and_eq_true, beq_iff_eq]
      exact ⟨trivial, h3⟩

/-- The service-under-route query holds of the fresh `build_route_node` iff
some service of the snapshot lives in the route's namespace, is referenced by
a kind-Service backend reference of the route, and bears the queried name. -/
theorem routeq_brn_iff (route : RouteV) (services : List ServiceV)
    (pods : List PodV) (sname : String) :
    routeWithSvcChild (route.mdata.name.getD "") route.mdata.nspace sname
        (build_route_node route services pods) = true ↔
      ∃ s ∈ services, s.mdata.nspace = route.mdata.nspace ∧
        routeReferencesName route.spec.rules (s.mdata.name.getD "") = true ∧
        s.mdata.name.getD "" = sname := by
  rw [routeWithSvcChild, isNodeId_build_route_node, Bool.true_and]
  have hrel : (build_route_node route services pods).relatives =
      (services.filter (fun s => s.mdata.nspace == route.mdata.nspace &&
        routeReferencesName route.spec.rules (s.mdata.name.getD ""))).map
        (fun s => service_with_pods s pods) := rfl
  rw [hrel, List.any_eq_true]
  constructor
  · rintro ⟨d, hd, hq⟩
    rcases List.mem_map.mp hd with ⟨s, hsmem, rfl⟩
    rw [List.mem_filter, Bool.and_eq_true] at hsmem
    simp only [(service_with_pods_id_fields s pods).1,
      (service_with_pods_id_fields s pods).2.1, Bool.and_eq_true,
      beq_iff_eq] at hq
    refine ⟨s, hsmem.1, ?_, hsmem.2.2, hq.2⟩
    have := hsmem.2.1
    simpa using this
  · rintro ⟨s, hs, h1, h2, h3⟩
    refine ⟨service_with_pods s pods, List.mem_map_of_mem _ ?_, ?_⟩
    · rw [List.mem_filter, Bool.and_eq_true]
      exact ⟨hs, by simp [h1], h2⟩
    · simp only [(service_with_pods_id_fields s pods).1,
        (service_with_pods_id_fields s pods).2.1, Bool.and_eq_true,
        beq_iff_eq]
      exact ⟨trivial, h3⟩

/-- For a query reading only identity fields, `attach_service` can make it
true only through the fresh `service_with_pods` copy. -/
theorem existsNode_relIndep_attach_service (q : HierarchyNode → Bool)
    (hq : RelIndep q) (service : ServiceV) (pods : List PodV)
    (r : HierarchyNode) :
    existsNode q (attach_service service pods r) =
      (existsNode q r || existsNode q (service_with_pods service pods)) := by
  cases r with
  | mk k n md sp rel =>
    rw [attach_service]
    simp only [HierarchyNode.relatives_mk, HierarchyNode.kind_mk,
      HierarchyNode.name_mk, HierarchyNode.mdata_mk, HierarchyNode.spec_mk]
    rw [existsNode_mk, existsNode_mk, existsNodeL_append]
    have hqroot : q (HierarchyNode.mk k n md sp
        ((rel.map fun c =>
          if is_referencing_route (service.mdata.name.getD "") c
          then c.extendRel [service_with_pods service pods] else c) ++
          (if rel.any (is_referencing_route (service.mdata.name.getD ""))
           then [] else [service_with_pods service pods]))) =
        q (HierarchyNode.mk k n md sp rel) := hq k n md sp _ rel
    rw [hqroot]
    have hqext : ∀ c : HierarchyNode,
        q (c.extendRel [service_with_pods service pods]) = q c := by
      intro c
      cases c with
      | mk k' n' md' sp' rel' => exact hq k' n' md' sp' _ rel'
    have hW : existsNodeL q
        (rel.map fun c =>
          if is_referencing_route (service.mdata.name.getD "") c
          then c.extendRel [service_with_pods service pods] else c) =
        (existsNodeL q rel ||
          (rel.any (is_referencing_route (service.mdata.name.getD "")) &&
            existsNode q (service_with_pods service pods))) := by
      clear hqroot
      induction rel with
      | nil => simp
      | cons c cs ih =>
        rw [List.map_cons, existsNodeL_cons, existsNodeL_cons, ih, List.any_cons]
        by_cases hc : is_referencing_route (service.mdata.name.getD "") c = true
        · rw [if_pos hc, hc]
          rw [existsNode_extendRel, hqext c]
          rw [existsNodeL_cons, existsNodeL_nil, Bool.or_false]
          rw [existsNode_eq q c]
          cases existsNode q (service_with_pods service pods) <;>
            cases existsNodeL q cs <;> simp
        · rw [if_neg hc]
          simp only [Bool.not_eq_true] at hc
          rw [hc, Bool.false_or, Bool.or_assoc]
    rw [hW]
    have hO : existsNodeL q
        (if rel.any (is_referencing_route (service.mdata.name.getD ""))
         then [] else [service_with_pods service pods]) =
        (!(rel.any (is_referencing_route (service.mdata.name.getD ""))) &&
          existsNode q (service_with_pods service pods)) := by
      by_cases hflag : rel.any (is_referencing_route
          (service.mdata.name.getD "")) = true
      · rw [if_pos hflag, hflag]
        simp
      · simp only [Bool.not_eq_true] at hflag
        rw [if_neg (by simp [hflag]), hflag]
        rw [existsNodeL_cons, existsNodeL_nil, Bool.or_false]
        simp
    rw [hO]
    cases rel.any (is_referencing_route (service.mdata.name.getD "")) <;>
      cases existsNode q (service_with_pods service pods) <;> simp

/-- No node of a fresh `service_with_pods` copy carries a route identity. -/
theorem existsNode_routeId_swp (rname : String) (rns : Option String)
    (s : ServiceV) (pods : List PodV) :
    existsNode (isNodeId .HTTPRoute rname rns) (service_with_pods s pods) =
      false := by
  rcases service_with_pods_relatives_shape s pods with ⟨ps, hps⟩
  cases hsw : service_with_pods s pods with
  | mk k n md sp rel =>
    rw [existsNode_mk]
    have hk : k = .Service := by
      have := (service_with_pods_id_fields s pods).1
      rw [hsw] at this
      simpa using this
    have hrel : rel = ps.map new_pod := by
      have := hps
      rw [hsw] at this
      simpa using this
    subst hrel
    have h1 : existsNodeL (isNodeId .HTTPRoute rname rns) (ps.map new_pod) =
        false := by
      rw [existsNodeL_eq, List.any_eq_false]
      intro c hc
      rcases List.mem_map.mp hc with ⟨p, _, rfl⟩
      rw [new_pod, existsNode_mk]
      simp [isNodeId]
    rw [h1, Bool.or_false]
    simp [isNodeId, hk]

/-- `mapFirst` keeps a forest free of a query when the rewrite does. -/
theorem existsNodeL_mapFirst_false (q p : HierarchyNode → Bool)
    (f : HierarchyNode → HierarchyNode) (l : List HierarchyNode)
    (hf : ∀ x, existsNode q x = false → existsNode q (f x) = false)
    (hl : existsNodeL q l = false) :
    existsNodeL q (mapFirst p f l) = false := by
  induction l with
  | nil => simp
  | cons x xs ih =>
    rw [existsNodeL_cons, Bool.or_eq_false_iff] at hl
    rw [mapFirst_cons]
    by_cases hp : p x = true
    · rw [if_pos hp, existsNodeL_cons, hf x hl.1, hl.2]
      rfl
    · rw [if_neg hp, existsNodeL_cons, hl.1, ih hl.2]
      rfl

/-- A service apply never introduces a node with a route identity: the
removal pass only deletes, and the attach only adds Service/Pod nodes. -/
theorem routeId_free_update_service (rname : String) (rns : Option String)
    (h : List HierarchyNode) (service : ServiceV) (pods : List PodV)
    (hfree : existsForest (isNodeId .HTTPRoute rname rns) h = false) :
    existsForest (isNodeId .HTTPRoute rname rns)
      (update_service_relationships h service pods) = false := by
  simp only [existsForest] at hfree ⊢
  simp only [update_service_relationships]
  apply existsNodeL_mapFirst_false
  · intro x hx
    rw [existsNode_relIndep_attach_service _ (relIndep_isNodeId .HTTPRoute
      rname rns), hx, Bool.false_or]
    exact existsNode_routeId_swp rname rns service pods
  · rw [existsNodeL_eq, List.any_eq_false] at hfree ⊢
    intro c hc
    rcases List.mem_map.mp hc with ⟨t, ht, rfl⟩
    have ht0 : countNode (isNodeId .HTTPRoute rname rns) t = 0 := by
      rw [countNode_eq_zero_iff]
      have := hfree t ht
      simpa using this
    have hle := countNode_remove_kind_le _ (relIndep_isNodeId .HTTPRoute
      rname rns) .Service (service.mdata.name.getD "") service.mdata.nspace t
    rw [ht0, Nat.le_zero] at hle
    rw [remove_service_node]
    rw [countNode_eq_zero_iff] at hle
    simp [hle]

/-- The route Delete arm leaves no node with the route's identity anywhere:
the removal clears it from every (Namespace) root, and the service re-apply
loop cannot reintroduce it. -/
theorem routeId_free_httproute_delete (h : List HierarchyNode) (route : RouteV)
    (services : List ServiceV) (pods : List PodV)
    (hroots : ∀ t ∈ h, t.kind = .Namespace) :
    existsForest (isNodeId .HTTPRoute (route.mdata.name.getD "")
        route.mdata.nspace) (httproute_delete h route services pods) = false := by
  simp only [httproute_delete]
  have hfree0 : existsForest (isNodeId .HTTPRoute (route.mdata.name.getD "")
      route.mdata.nspace)
      (h.map (remove_httproute_node (route.mdata.name.getD "")
        route.mdata.nspace)) = false := by
    rw [existsForest, existsNodeL_eq, List.any_eq_false]
    intro c hc
    rcases List.mem_map.mp hc with ⟨t, ht, rfl⟩
    have hk := hroots t ht
    rw [remove_httproute_node, existsNode_remove_kind]
    simp [isNodeId, hk]
  have hstep : ∀ (l : List ServiceV) (acc : List HierarchyNode),
      existsForest (isNodeId .HTTPRoute (route.mdata.name.getD "")
        route.mdata.nspace) acc = false →
      existsForest (isNodeId .HTTPRoute (route.mdata.name.getD "")
        route.mdata.nspace)
        (l.foldl (fun hh service =>
          if service.mdata.nspace == route.mdata.nspace
          then update_service_relationships hh service pods
          else hh) acc) = false := by
    intro l
    induction l with
    | nil =>
      intro acc hacc
      simpa using hacc
    | cons s ss ih =>
      intro acc hacc
      rw [List.foldl_cons]
      apply ih
      by_cases hcond : (s.mdata.nspace == route.mdata.nspace) = true
      · rw [if_pos hcond]
        exact routeId_free_update_service _ _ acc s pods hacc
      · rw [if_neg hcond]
        exact hacc
  exact hstep services _ hfree0

/-! ### Claim C7 -/

/-- C7 (confirmed): for every reachable tree state and every object snapshot,
applying the same snapshot twice in a row produces the same tree as applying it
once — each per-kind apply handler (`update_service_relationships`,
`update_pod_relationships`, `update_httproute_relationships`) is idempotent
on every hierarchy, not just reachable ones. -/
theorem C7_apply_handlers_idempotent :
    (∀ (h : List HierarchyNode) (service : ServiceV) (pods : List PodV),
      update_service_relationships
        (update_service_relationships h service pods) service pods =
        update_service_relationships h service pods) ∧
    (∀ (h : List HierarchyNode) (pod : PodV),
      update_pod_relationships (update_pod_relationships h pod) pod =
        update_pod_relationships h pod) ∧
    (∀ (h : List HierarchyNode) (httproute : RouteV) (services : List ServiceV)
        (pods : List PodV),
      update_httproute_relationships
        (update_httproute_relationships h httproute services pods)
        httproute services pods =
        update_httproute_relationships h httproute services pods) := by
  refine ⟨?_, ?_, ?_⟩
  · intro h service pods
    simp only [update_service_relationships, remove_service_node]
    exact update_fixed_point _ _ _ (remove_kind_node_idem _ _ _)
      (remove_attach_service service pods) h
  · intro h pod
    simp only [update_pod_relationships, remove_pod_node]
    exact update_fixed_point _ _ _ (remove_kind_node_idem _ _ _)
      (remove_attach_pod pod) h
  · intro h httproute services pods
    simp only [update_httproute_relationships, remove_httproute_node]
    exact update_fixed_point _ _ _ (remove_kind_node_idem _ _ _)
      (remove_attach_route httproute services pods) h

/-! ### Claim C2 -/

/-- C2 (code_bug): the uniqueness invariant fails. After the notification
sequence "apply Namespace ns1; apply Pod pod1 (labels app=web); apply Service
svc1 (selector app=web, with pod1 in the pod store)", the live object
(Pod, ns1, pod1) appears twice in the forest: once directly under the ns1 root
(where the pod apply left it) and once under svc1 (the service apply copies
every matching pod under the service without detaching the pod's existing
node). The claim requires the count to be 1. -/
theorem C2_duplicate_pod_after_service_apply :
    countForest (isNodeId .Pod "pod1" (some "ns1"))
      (update_service_relationships
        (update_pod_relationships [ns1node] pod1) svc1 [pod1]) = 2 := by
  rfl

/-! ### Claim C6 -/

/-- C6 (corrected): the Delete handler for a Service removes that service's
node together with its entire subtree from every root, re-attaching nothing:
(1) no node with the service's identity remains anywhere after
`service_delete`; (2) a service delete never adds nodes (every identity
count is monotone); (3) from the Scenario A/B state, deleting `svc1` yields
exactly `ns1 → r1`; (4) `pod1` is then gone from the whole view; (5) a
Namespace delete removes the whole root (and with it everything beneath it);
(6) a Route delete removes every node with the route's identity from a
forest of Namespace roots — but its Delete arm then re-applies every
same-namespace service from the caches, so the deleted route's Service
children (with their pods) may be re-attached under the Namespace root (see
the counterexample); the original claim's "deleted children are not
re-attached elsewhere" holds for Service deletes only. -/
theorem C6_delete_removes_object_and_subtree :
    (∀ (h : List HierarchyNode) (service : ServiceV),
      (∀ t ∈ h, t.kind = .Namespace) →
      existsForest
        (isNodeId .Service (service.mdata.name.getD "") service.mdata.nspace)
        (service_delete h service) = false) ∧
    (∀ q, RelIndep q → ∀ nm ns (t : HierarchyNode),
      countNode q (remove_service_node nm ns t) ≤ countNode q t) ∧
    (service_delete scenarioAB svc1 =
      [.mk .Namespace "ns1" ⟨some "ns1", none, none⟩ (some .NamespaceSpec)
        [.mk .HTTPRoute "r1" ⟨some "r1", some "ns1", none⟩
          (some (.HTTPRouteSpec (some [⟨some [⟨some "Service", "svc1"⟩]⟩]))) []]]) ∧
    (existsForest (isNodeId .Pod "pod1" (some "ns1"))
      (service_delete scenarioAB svc1) = false) ∧
    (∀ (h : List HierarchyNode) (nm : String),
      (namespace_delete h nm).all
        (fun r => !(r.kind == .Namespace && r.name == nm)) = true) ∧
    (∀ (h : List HierarchyNode) (route : RouteV) (services : List ServiceV)
        (pods : List PodV),
      (∀ t ∈ h, t.kind = .Namespace) →
      existsForest (isNodeId .HTTPRoute (route.mdata.name.getD "")
        route.mdata.nspace) (httproute_delete h route services pods) = false) := by
  refine ⟨?_, ?_, by rfl, by rfl, ?_, ?_⟩
  · intro h service hroots
    rw [service_delete, existsForest]
    induction h with
    | nil => rfl
    | cons y ys ih =>
      rw [List.map_cons, existsNodeL_cons, Bool.or_eq_false_iff]
      refine ⟨?_, ih (fun t ht => hroots t (by simp [ht]))⟩
      rw [remove_service_node, existsNode_remove_kind]
      have hy : y.kind = .Namespace := hroots y (by simp)
      simp [isNodeId, hy]
  · intro q hq nm ns t
    rw [remove_service_node]
    exact countNode_remove_kind_le q hq .Service nm ns t
  · intro h nm
    rw [List.all_eq_true]
    intro r hr
    exact (List.mem_filter.mp hr).2
  · intro h route services pods hroots
    exact routeId_free_httproute_delete h route services pods hroots

/-- Witness for C6: the hypothesis-bearing conjuncts applied at concrete
inputs. -/
theorem C6_witness :
    existsForest (isNodeId .Service "svc1" (some "ns1"))
      (service_delete [ns1node] svc1) = false ∧
    countNode (isNodeId .Pod "pod1" (some "ns1"))
        (remove_service_node "svc1" (some "ns1") ns1node) ≤
      countNode (isNodeId .Pod "pod1" (some "ns1")) ns1node ∧
    existsForest (isNodeId .HTTPRoute "r1" (some "ns1"))
      (httproute_delete
        (update_httproute_relationships [ns1node] r1 [svc1] [pod1])
        r1 [svc1] [pod1]) = false :=
  ⟨C6_delete_removes_object_and_subtree.1 [ns1node] svc1
      (fun t ht => by
        rcases List.mem_singleton.mp ht with rfl
        rfl),
   C6_delete_removes_object_and_subtree.2.1 _
      (relIndep_isNodeId .Pod "pod1" (some "ns1")) "svc1" (some "ns1") ns1node,
   C6_delete_removes_object_and_subtree.2.2.2.2.2
      (update_httproute_relationships [ns1node] r1 [svc1] [pod1])
      r1 [svc1] [pod1]
      (fun t ht => by
        rcases List.mem_singleton.mp ht with rfl
        rfl)⟩

/-! ### Claim C8 -/

/-- C8 (confirmed): the readiness endpoint (`router::healthz`) reports ready
(HTTP 200) iff the hierarchy is non-empty, and reports unavailable (HTTP 503)
iff it is empty. -/
theorem C8_healthz_ready_iff_nonempty :
    ∀ (h : List HierarchyNode),
      (healthz h = 200 ↔ h ≠ []) ∧ (healthz h = 503 ↔ h = []) := by
  intro h
  cases h <;> simp [healthz]

/-! ### Counterexamples for C1, C3, C4, C5, C9 -/

/-- C6 counterexample: deleted children ARE re-attached elsewhere in the
Route case. Start from `ns1` holding only route `r1` whose subtree carries
`svc1 → pod1` (no direct service copy: the second conjunct). Deleting `r1`
removes the route node with its subtree, but the Delete arm then re-applies
every same-namespace service from the caches, so `svc1` (with `pod1`)
reappears as a direct child of the `ns1` root (third and fourth conjuncts;
the first is the full resulting tree). -/
theorem C6_route_delete_reattaches_children :
    (httproute_delete
        (update_httproute_relationships [ns1node] r1 [svc1] [pod1])
        r1 [svc1] [pod1] =
      [.mk .Namespace "ns1" ⟨some "ns1", none, none⟩ (some .NamespaceSpec)
        [.mk .Service "svc1" ⟨some "svc1", some "ns1", none⟩
          (some (.ServiceSpec (some [("app", "web")])))
          [.mk .Pod "pod1" ⟨some "pod1", some "ns1", some [("app", "web")]⟩
            (some .PodSpec) []]]]) ∧
    serviceDirectlyUnderNamespace "ns1" "svc1" (some "ns1")
      (update_httproute_relationships [ns1node] r1 [svc1] [pod1]) = false ∧
    serviceDirectlyUnderNamespace "ns1" "svc1" (some "ns1")
      (httproute_delete
        (update_httproute_relationships [ns1node] r1 [svc1] [pod1])
        r1 [svc1] [pod1]) = true ∧
    podUnderService "svc1" (some "ns1") "pod1"
      (httproute_delete
        (update_httproute_relationships [ns1node] r1 [svc1] [pod1])
        r1 [svc1] [pod1]) = true :=
  ⟨by rfl, by rfl, by rfl, by rfl⟩

/-- C1 counterexample: a Service whose selector is present but empty
(`svcE`) does own Pod children — applying it with `pod1` in the pod store
attaches `pod1` beneath it, because `selectors_match` on an empty selector map
is vacuously true and the handlers never test for emptiness. The claim states
such a service owns no Pod children. -/
theorem C1_empty_selector_collects_pod :
    svcE.spec = some ⟨some []⟩ ∧
    podUnderService "svcE" (some "ns1") "pod1"
      (update_service_relationships [ns1node] svcE [pod1]) = true :=
  ⟨rfl, by rfl⟩

/-- C1 (corrected): for a Service carrying a spec, applied to a forest of
Namespace roots among which its namespace root is found, a Pod of the
snapshot ends up attached under the Service iff the Pod lives in the
Service's namespace and `selectors_match` holds of the Service's selector
(defaulted to the empty map when absent) against the Pod's labels. The
original claim's extra non-emptiness requirement on the selector is absent
from the code: `selectors_match` on an empty selector map is vacuously true,
so an empty-selector Service collects every Pod of its namespace. -/
theorem C1_pod_attached_iff_ns_and_selector_match
    (hierarchy : List HierarchyNode) (svc : ServiceV) (pods : List PodV)
    (sp : SvcSpecV) (pname : String) (r : HierarchyNode)
    (hroots : ∀ t ∈ hierarchy, t.kind = .Namespace)
    (hs : svc.spec = some sp)
    (hfind : (hierarchy.map (remove_service_node (svc.mdata.name.getD "")
        svc.mdata.nspace)).find?
        (fun n => n.kind == .Namespace && n.mdata.name == svc.mdata.nspace) =
      some r) :
    podUnderService (svc.mdata.name.getD "") svc.mdata.nspace pname
        (update_service_relationships hierarchy svc pods) = true ↔
      ∃ p ∈ pods, p.mdata.nspace = svc.mdata.nspace ∧
        selectors_match (sp.selector.getD []) p.labelsD = true ∧
        p.mdata.name.getD "" = pname := by
  obtain ⟨l₁, l₂, hsplit, hfalse, hr, hmap⟩ :=
    mapFirst_eq_of_find
      (fun n => n.kind == .Namespace && n.mdata.name == svc.mdata.nspace)
      (attach_service svc pods) _ r hfind
  simp only [podUnderService, update_service_relationships, existsForest]
  rw [hmap, existsNodeL_append, existsNodeL_cons]
  have hmem : ∀ x ∈ hierarchy.map (remove_service_node
      (svc.mdata.name.getD "") svc.mdata.nspace),
      existsNode (svcWithPodChild (svc.mdata.name.getD "") svc.mdata.nspace
        pname) x = false ∧ x.kind = .Namespace := by
    intro x hx
    rcases List.mem_map.mp hx with ⟨t, ht, rfl⟩
    have hk := hroots t ht
    refine ⟨existsNode_svcq_remove_service _ _ _ t (by simp [hk]), ?_⟩
    rw [remove_service_node]
    simp [hk]
  have h1 : existsNodeL (svcWithPodChild (svc.mdata.name.getD "")
      svc.mdata.nspace pname) l₁ = false := by
    rw [existsNodeL_eq, List.any_eq_false]
    intro c hc
    have := (hmem c (by rw [hsplit]; exact List.mem_append.mpr (Or.inl hc))).1
    simp [this]
  have h2 : existsNodeL (svcWithPodChild (svc.mdata.name.getD "")
      svc.mdata.nspace pname) l₂ = false := by
    rw [existsNodeL_eq, List.any_eq_false]
    intro c hc
    have := (hmem c (by
      rw [hsplit]
      exact List.mem_append.mpr (Or.inr (List.mem_cons_of_mem _ hc)))).1
    simp [this]
  have hrmem := hmem r (by
    rw [hsplit]
    exact List.mem_append.mpr (Or.inr (List.mem_cons_self _ _)))
  rw [h1, h2, Bool.false_or, Bool.or_false]
  rw [existsNode_svcq_attach_service svc pods pname r (by simp [hrmem.2])]
  rw [hrmem.1, Bool.false_or]
  exact svcq_swp_iff svc pods sp pname hs

/-- Witness for C1: the amended theorem applied at the Scenario-A objects. -/
theorem C1_witness :
    podUnderService "svc1" (some "ns1") "pod1"
        (update_service_relationships [ns1node] svc1 [pod1]) = true ↔
      ∃ p ∈ [pod1], p.mdata.nspace = svc1.mdata.nspace ∧
        selectors_match ([("app", "web")] : Labels) p.labelsD = true ∧
        p.mdata.name.getD "" = "pod1" :=
  C1_pod_attached_iff_ns_and_selector_match [ns1node] svc1 [pod1]
    ⟨some [("app", "web")]⟩ "pod1" ns1node
    (fun t ht => by rcases List.mem_singleton.mp ht with rfl; rfl)
    rfl rfl

/-- C3 counterexample: a Pod whose labels satisfy the selectors of two
Services is attached under both of them by a single pod apply; the claim says
exactly one copy is attached, under the first matching service. -/
theorem C3_pod_under_two_services :
    podUnderService "svcA" (some "ns1") "pod1"
      (update_pod_relationships
        (update_service_relationships
          (update_service_relationships [ns1node] svcA []) svcB []) pod1) = true ∧
    podUnderService "svcB" (some "ns1") "pod1"
      (update_pod_relationships
        (update_service_relationships
          (update_service_relationships [ns1node] svcA []) svcB []) pod1) = true ∧
    countForest (isNodeId .Pod "pod1" (some "ns1"))
      (update_pod_relationships
        (update_service_relationships
          (update_service_relationships [ns1node] svcA []) svcB []) pod1) = 2 :=
  ⟨by rfl, by rfl, by rfl⟩

/-- C3 (corrected): after a pod apply into a forest of Namespace roots whose
namespace root is found, the number of copies of the pod in the forest is
`max 1 m`, where `m` counts the services (anywhere under that root) whose
namespace and selector match the pod. With two matching Services the pod node
appears twice — under both of them, not exactly once under the first match as
the claim states; only when no service matches is a single copy attached
(directly under the Namespace root). -/
theorem C3_pod_copies_count_equals_matching_services
    (hierarchy : List HierarchyNode) (pod : PodV) (r : HierarchyNode)
    (hroots : ∀ t ∈ hierarchy, t.kind = .Namespace)
    (hfind : (hierarchy.map (remove_pod_node (pod.mdata.name.getD "")
        pod.mdata.nspace)).find?
        (fun n => n.kind == .Namespace && n.mdata.name == pod.mdata.nspace) =
      some r) :
    countForest (isNodeId .Pod (pod.mdata.name.getD "") pod.mdata.nspace)
        (update_pod_relationships hierarchy pod) =
      max 1 (countNode (pod_matches_service pod pod.labelsD) r) := by
  obtain ⟨l₁, l₂, hsplit, hfalse, hr, hmap⟩ :=
    mapFirst_eq_of_find
      (fun n => n.kind == .Namespace && n.mdata.name == pod.mdata.nspace)
      (attach_pod pod) _ r hfind
  simp only [update_pod_relationships, countForest]
  rw [hmap, countNodeL_append, countNodeL_cons]
  have hmem : ∀ x ∈ hierarchy.map (remove_pod_node (pod.mdata.name.getD "")
      pod.mdata.nspace),
      countNode (isNodeId .Pod (pod.mdata.name.getD "") pod.mdata.nspace)
        x = 0 := by
    intro x hx
    rcases List.mem_map.mp hx with ⟨t, ht, rfl⟩
    have hk := hroots t ht
    rw [remove_pod_node, countNode_eq_zero_iff, existsNode_remove_kind]
    simp [isNodeId, hk]
  have h1 : countNodeL (isNodeId .Pod (pod.mdata.name.getD "")
      pod.mdata.nspace) l₁ = 0 := by
    rw [countNodeL_eq]
    apply List.sum_eq_zero
    intro y hy
    rcases List.mem_map.mp hy with ⟨c, hc, rfl⟩
    exact hmem c (by rw [hsplit]; exact List.mem_append.mpr (Or.inl hc))
  have h2 : countNodeL (isNodeId .Pod (pod.mdata.name.getD "")
      pod.mdata.nspace) l₂ = 0 := by
    rw [countNodeL_eq]
    apply List.sum_eq_zero
    intro y hy
    rcases List.mem_map.mp hy with ⟨c, hc, rfl⟩
    exact hmem c (by
      rw [hsplit]
      exact List.mem_append.mpr (Or.inr (List.mem_cons_of_mem _ hc)))
  have hr0 := hmem r (by
    rw [hsplit]
    exact List.mem_append.mpr (Or.inr (List.mem_cons_self _ _)))
  rw [h1, h2]
  simp only [attach_pod]
  rw [add_pod_snd, Bool.false_or]
  by_cases he : existsNode (pod_matches_service pod pod.labelsD) r = true
  · rw [if_pos he, countNode_add_pod, hr0]
    have hm : countNode (pod_matches_service pod pod.labelsD) r ≠ 0 := by
      rw [Ne, countNode_eq_zero_iff, he]
      simp
    omega
  · simp only [Bool.not_eq_true] at he
    rw [if_neg (by simp [he])]
    rw [countNode_extendRel _ (relIndep_isNodeId .Pod (pod.mdata.name.getD "")
      pod.mdata.nspace), countNode_add_pod, hr0]
    have hm : countNode (pod_matches_service pod pod.labelsD) r = 0 :=
      (countNode_eq_zero_iff _ _).mpr he
    have hone : countNodeL (isNodeId .Pod (pod.mdata.name.getD "")
        pod.mdata.nspace) [new_pod pod] = 1 := by
      rw [countNodeL_cons, countNodeL_nil]
      have hid := isNodeId_new_pod pod
      rw [new_pod] at hid ⊢
      rw [countNode_mk, if_pos hid, countNodeL_nil]
    rw [hm, hone]
    omega

/-- Witness for C3: the amended theorem applied with `pod1` matching both
`svcA` and `svcB`; the copy count is `max 1 2 = 2`. -/
theorem C3_witness :
    countForest (isNodeId .Pod "pod1" (some "ns1"))
        (update_pod_relationships
          (update_service_relationships
            (update_service_relationships [ns1node] svcA []) svcB []) pod1) =
      max 1 (countNode (pod_matches_service pod1 pod1.labelsD)
        (.mk .Namespace "ns1" ⟨some "ns1", none, none⟩ (some .NamespaceSpec)
          [.mk .Service "svcA" ⟨some "svcA", some "ns1", none⟩
            (some (.ServiceSpec (some [("app", "web")]))) [],
           .mk .Service "svcB" ⟨some "svcB", some "ns1", none⟩
            (some (.ServiceSpec (some [("app", "web")]))) []])) :=
  C3_pod_copies_count_equals_matching_services
    (update_service_relationships
      (update_service_relationships [ns1node] svcA []) svcB []) pod1
    (.mk .Namespace "ns1" ⟨some "ns1", none, none⟩ (some .NamespaceSpec)
      [.mk .Service "svcA" ⟨some "svcA", some "ns1", none⟩
        (some (.ServiceSpec (some [("app", "web")]))) [],
       .mk .Service "svcB" ⟨some "svcB", some "ns1", none⟩
        (some (.ServiceSpec (some [("app", "web")]))) []])
    (by decide) rfl

/-- C4 counterexample: applying Route `r1` (which references `svc1`) to a
hierarchy where `svc1` already sits directly under the `ns1` root leaves that
direct copy in place while also nesting a copy under the route — the
referenced Service IS additionally attached directly under the Namespace root,
contradicting the claim. -/
theorem C4_stale_direct_service_after_route_apply :
    serviceUnderRoute "r1" (some "ns1") "svc1"
      (update_httproute_relationships
        (update_service_relationships [ns1node] svc1 [pod1]) r1 [svc1] [pod1]) = true ∧
    serviceDirectlyUnderNamespace "ns1" "svc1" (some "ns1")
      (update_httproute_relationships
        (update_service_relationships [ns1node] svc1 [pod1]) r1 [svc1] [pod1]) = true :=
  ⟨by rfl, by rfl⟩

/-- C4 (corrected): after a route apply into a forest of Namespace roots
whose namespace root is found, a Service named `sname` sits under the route
iff some service of the snapshot lives in the route's namespace, is named by
a backend reference of the route that declares kind `Service` (references
with any other declared kind are ignored), and bears that name. The original
claim's further guarantee — that a referenced Service is not additionally
attached directly under the Namespace root — does not hold: the route apply
leaves any stale direct copy of the service in place. -/
theorem C4_service_under_route_iff_referenced
    (hierarchy : List HierarchyNode) (route : RouteV) (services : List ServiceV)
    (pods : List PodV) (sname : String) (r : HierarchyNode)
    (hroots : ∀ t ∈ hierarchy, t.kind = .Namespace)
    (hfind : (hierarchy.map (remove_httproute_node (route.mdata.name.getD "")
        route.mdata.nspace)).find?
        (fun n => n.kind == .Namespace && n.mdata.name == route.mdata.nspace) =
      some r) :
    serviceUnderRoute (route.mdata.name.getD "") route.mdata.nspace sname
        (update_httproute_relationships hierarchy route services pods) = true ↔
      ∃ s ∈ services, s.mdata.nspace = route.mdata.nspace ∧
        routeReferencesName route.spec.rules (s.mdata.name.getD "") = true ∧
        s.mdata.name.getD "" = sname := by
  obtain ⟨l₁, l₂, hsplit, hfalse, hr, hmap⟩ :=
    mapFirst_eq_of_find
      (fun n => n.kind == .Namespace && n.mdata.name == route.mdata.nspace)
      (attach_route route services pods) _ r hfind
  simp only [serviceUnderRoute, update_httproute_relationships, existsForest]
  rw [hmap, existsNodeL_append, existsNodeL_cons]
  have hmem : ∀ x ∈ hierarchy.map (remove_httproute_node
      (route.mdata.name.getD "") route.mdata.nspace),
      existsNode (routeWithSvcChild (route.mdata.name.getD "")
        route.mdata.nspace sname) x = false := by
    intro x hx
    rcases List.mem_map.mp hx with ⟨t, ht, rfl⟩
    have hk := hroots t ht
    exact existsNode_routeq_remove_route _ _ _ t (by simp [hk])
  have h1 : existsNodeL (routeWithSvcChild (route.mdata.name.getD "")
      route.mdata.nspace sname) l₁ = false := by
    rw [existsNodeL_eq, List.any_eq_false]
    intro c hc
    have := hmem c (by rw [hsplit]; exact List.mem_append.mpr (Or.inl hc))
    simp [this]
  have h2 : existsNodeL (routeWithSvcChild (route.mdata.name.getD "")
      route.mdata.nspace sname) l₂ = false := by
    rw [existsNodeL_eq, List.any_eq_false]
    intro c hc
    have := hmem c (by
      rw [hsplit]
      exact List.mem_append.mpr (Or.inr (List.mem_cons_of_mem _ hc)))
    simp [this]
  have hr0 := hmem r (by
    rw [hsplit]
    exact List.mem_append.mpr (Or.inr (List.mem_cons_self _ _)))
  rw [h1, h2, Bool.false_or, Bool.or_false]
  rw [existsNode_routeq_attach_route, hr0, Bool.false_or]
  exact routeq_brn_iff route services pods sname

/-- Witness for C4: the amended theorem applied at the Scenario-B objects
(`r1` references `svc1` with declared kind `Service`). -/
theorem C4_witness :
    serviceUnderRoute "r1" (some "ns1") "svc1"
        (update_httproute_relationships [ns1node] r1 [svc1] [pod1]) = true ↔
      ∃ s ∈ [svc1], s.mdata.nspace = r1.mdata.nspace ∧
        routeReferencesName r1.spec.rules (s.mdata.name.getD "") = true ∧
        s.mdata.name.getD "" = "svc1" :=
  C4_service_under_route_iff_referenced [ns1node] r1 [svc1] [pod1] "svc1"
    ns1node
    (fun t ht => by rcases List.mem_singleton.mp ht with rfl; rfl)
    rfl

/-- C5 counterexample: applying a Service whose Namespace root is absent
leaves the (here: empty) hierarchy unchanged — no placeholder Namespace root
is created and the Service is attached nowhere; the apply is silently
dropped in the watcher path. -/
theorem C5_service_apply_dropped_without_namespace :
    update_service_relationships [] svc1 [pod1] = [] := by
  rfl

/-- C9 counterexample: the read/publish sort (`sort_state`) orders only the
root list; the children of `ns1` stay in insertion order `[b, a]`, so the
published tree is not name-sorted at every level as the claim states. -/
theorem C9_children_not_sorted :
    sort_state unsortedRoots = unsortedRoots ∧
    forestAllSorted (sort_state unsortedRoots) = false := by
  refine ⟨rfl, ?_⟩
  have h1 : sort_state unsortedRoots = unsortedRoots := rfl
  rw [h1]
  have hba : (decide (("b" : String) ≤ "a")) = false := by
    rw [decide_eq_false_iff_not]
    simp only [String.le_iff_toList_le]
    decide
  simp [forestAllSorted, unsortedRoots, allLevelsSortedL, allLevelsSorted,
    namesSorted, hba]
  decide

/-! ### Claim C9, amended -/

/-- C9 amended (corrected): every tree handed to a reader or subscriber is
sorted by name at the ROOT level only — `sort_state` returns a permutation of
the stored roots (each subtree passed through unchanged) that is weakly
ordered by name; deeper sibling lists keep their insertion order (see the
counterexample). -/
theorem C9_top_level_sorted_permutation :
    ∀ (h : List HierarchyNode),
      List.Sorted (fun a b => a.name ≤ b.name) (sort_state h) ∧
      List.Perm (sort_state h) h := by
  intro h
  exact ⟨List.sorted_insertionSort _ h, List.perm_insertionSort _ h⟩

/-! ### Association-map lemmas for the controller graph -/

namespace Ctrl

theorem getA_insertA_self {β : Type} (m : List (String × β)) (k : String) (v : β) :
    getA (insertA m k v) k = some v := by
  induction m with
  | nil => simp [insertA, getA]
  | cons p rest ih =>
    rcases p with ⟨k', v'⟩
    rw [insertA]
    by_cases h : (k' == k) = true
    · rw [if_pos h]
      simp [getA]
    · rw [if_neg h]
      rw [getA, List.find?_cons_of_neg _ (by simpa using h)]
      exact ih

theorem getA_insertA_ne {β : Type} (m : List (String × β)) (k k' : String) (v : β)
    (h : k' ≠ k) : getA (insertA m k v) k' = getA m k' := by
  induction m with
  | nil =>
    rw [insertA, getA, getA,
      List.find?_cons_of_neg _ (by simp; exact Ne.symm h)]
  | cons p rest ih =>
    rcases p with ⟨k₀, v₀⟩
    rw [insertA]
    by_cases h0 : (k₀ == k) = true
    · rw [if_pos h0]
      have hk0 : k₀ = k := by simpa using h0
      subst hk0
      rw [getA, getA, List.find?_cons_of_neg _ (by simp; exact Ne.symm h),
        List.find?_cons_of_neg _ (by simp; exact Ne.symm h)]
    · rw [if_neg h0]
      by_cases hk' : (k₀ == k') = true
      · rw [getA, getA, List.find?_cons_of_pos _ (by simpa using hk'),
          List.find?_cons_of_pos _ (by simpa using hk')]
      · rw [getA, getA, List.find?_cons_of_neg _ (by simpa using hk'),
          List.find?_cons_of_neg _ (by simpa using hk')]
        exact ih

theorem containsA_eq_isSome_getA {β : Type} (m : List (String × β)) (k : String) :
    containsA m k = (getA m k).isSome := by
  induction m with
  | nil => rfl
  | cons p rest ih =>
    rcases p with ⟨k₀, v₀⟩
    by_cases h : (k₀ == k) = true
    · rw [containsA, List.any_cons, getA,
        List.find?_cons_of_pos _ (by simpa using h)]
      simp [h]
    · rw [containsA, List.any_cons, getA,
        List.find?_cons_of_neg _ (by simpa using h)]
      simp only [show ((k₀, v₀).1 == k) = false by simpa using h, Bool.false_or]
      exact ih

theorem mem_insertA {β : Type} (m : List (String × β)) (k : String) (v : β)
    (x : String × β) (hx : x ∈ insertA m k v) : x ∈ m ∨ x = (k, v) := by
  induction m with
  | nil =>
    rw [insertA] at hx
    exact Or.inr (List.mem_singleton.mp hx)
  | cons p rest ih =>
    rcases p with ⟨k₀, v₀⟩
    rw [insertA] at hx
    by_cases h0 : (k₀ == k) = true
    · rw [if_pos h0] at hx
      rcases List.mem_cons.mp hx with rfl | hx
      · exact Or.inr rfl
      · exact Or.inl (by simp [hx])
    · rw [if_neg h0] at hx
      rcases List.mem_cons.mp hx with rfl | hx
      · exact Or.inl (by simp)
      · rcases ih hx with h | h
        · exact Or.inl (by simp [h])
        · exact Or.inr h

theorem getA_cons_of_pos {β : Type} (k₀ : String) (v₀ : β) (rest) (k : String)
    (h : (k₀ == k) = true) : getA ((k₀, v₀) :: rest) k = some v₀ := by
  rw [getA, List.find?_cons_of_pos _ (by simpa using h)]
  rfl

theorem getA_cons_of_neg {β : Type} (k₀ : String) (v₀ : β) (rest) (k : String)
    (h : (k₀ == k) = false) : getA ((k₀, v₀) :: rest) k = getA rest k := by
  rw [getA, List.find?_cons_of_neg _ (by simp [h]), getA]

theorem getA_removeA_ne {β : Type} (m : List (String × β)) (k k' : String)
    (h : k' ≠ k) : getA (removeA m k) k' = getA m k' := by
  induction m with
  | nil => rfl
  | cons p rest ih =>
    rcases p with ⟨k₀, v₀⟩
    rw [removeA]
    by_cases h0 : (k₀ == k) = true
    · rw [if_pos h0]
      have hk0 : k₀ = k := by simpa using h0
      subst hk0
      rw [getA_cons_of_neg _ _ _ _ (by simpa using (Ne.symm h))]
    · rw [if_neg h0]
      by_cases hk' : (k₀ == k') = true
      · rw [getA_cons_of_pos _ _ _ _ hk', getA_cons_of_pos _ _ _ _ hk']
      · simp only [Bool.not_eq_true] at hk'
        rw [getA_cons_of_neg _ _ _ _ hk', getA_cons_of_neg _ _ _ _ hk']
        exact ih

theorem updateA_cons {β : Type} (k₀ : String) (v₀ : β) (rest) (k : String)
    (f : β → β) :
    updateA ((k₀, v₀) :: rest) k f =
      (if (k₀ == k) = true then (k₀, f v₀) else (k₀, v₀)) :: updateA rest k f := by
  rw [updateA, List.map_cons, updateA]

theorem getA_updateA_self {β : Type} (m : List (String × β)) (k : String)
    (f : β → β) : getA (updateA m k f) k = (getA m k).map f := by
  induction m with
  | nil => rfl
  | cons p rest ih =>
    rcases p with ⟨k₀, v₀⟩
    rw [updateA_cons]
    by_cases h0 : (k₀ == k) = true
    · rw [if_pos h0, getA_cons_of_pos _ _ _ _ h0, getA_cons_of_pos _ _ _ _ h0]
      rfl
    · simp only [Bool.not_eq_true] at h0
      rw [if_neg (by simp [h0]), getA_cons_of_neg _ _ _ _ h0,
        getA_cons_of_neg _ _ _ _ h0]
      exact ih

theorem getA_updateA_ne {β : Type} (m : List (String × β)) (k k' : String)
    (f : β → β) (h : k' ≠ k) : getA (updateA m k f) k' = getA m k' := by
  induction m with
  | nil => rfl
  | cons p rest ih =>
    rcases p with ⟨k₀, v₀⟩
    rw [updateA_cons]
    by_cases h0 : (k₀ == k) = true
    · have hk0 : k₀ = k := by simpa using h0
      subst hk0
      rw [if_pos h0, getA_cons_of_neg _ _ _ _ (by simpa using (Ne.symm h)),
        getA_cons_of_neg _ _ _ _ (by simpa using (Ne.symm h))]
      exact ih
    · rw [if_neg h0]
      by_cases hk' : (k₀ == k') = true
      · rw [getA_cons_of_pos _ _ _ _ hk', getA_cons_of_pos _ _ _ _ hk']
      · simp only [Bool.not_eq_true] at hk'
        rw [getA_cons_of_neg _ _ _ _ hk', getA_cons_of_neg _ _ _ _ hk']
        exact ih

theorem containsA_insertA_of {β : Type} (m : List (String × β)) (k k' : String)
    (v : β) (h : containsA m k' = true) : containsA (insertA m k v) k' = true := by
  rw [containsA_eq_isSome_getA] at h ⊢
  by_cases hk : k' = k
  · subst hk
    rw [getA_insertA_self]
    rfl
  · rw [getA_insertA_ne _ _ _ _ hk]
    exact h

@[simp] theorem add_edge_nodes (g : Graph) (p c : NodeId) :
    (g.add_edge p c).nodes = g.nodes := by
  rw [Graph.add_edge]
  by_cases hif : (containsA g.nodes p.key && containsA g.nodes c.key) = true
  · rw [if_pos hif]
    rcases hg : getA g.nodes c.key with _ | cn <;> rfl
  · rw [if_neg hif]

/-- Generic fold-invariant principle. -/
theorem foldl_inv {α β : Type} (step : β → α → β) (Inv : β → Prop)
    (l : List α) (hstep : ∀ x ∈ l, ∀ acc, Inv acc → Inv (step acc x)) :
    ∀ acc, Inv acc → Inv (List.foldl step acc l) := by
  induction l with
  | nil => intro acc h; exact h
  | cons x xs ih =>
    intro acc h
    rw [List.foldl_cons]
    exact ih (fun y hy acc' h' => hstep y (by simp [hy]) acc' h')
      (step acc x) (hstep x (by simp) acc h)

/-- A filtered edge list keeps its `svcK` entry as long as the filtered-out id
is different. -/
theorem any_filter_keeps {svcK pk : String} (l : List EdgeInfo)
    (hne : svcK ≠ pk)
    (h : l.any (fun e => e.id == svcK) = true) :
    (l.filter (fun e => !(e.id == pk))).any (fun e => e.id == svcK) = true := by
  rcases List.any_eq_true.mp h with ⟨e, hmem, hid⟩
  have hde : e.id = svcK := by simpa using hid
  refine List.any_eq_true.mpr ⟨e, List.mem_filter.mpr ⟨hmem, ?_⟩, hid⟩
  simp [hde, hne]

/-- The `add_edge(ns_id, node_id)` call of `service_reconciler` establishes
the invariant, whatever the edges/reverse maps contain at that point. -/
theorem add_edge_establishes_inv (N2 : List (String × CNode))
    (nsId svcId : NodeId) (svcnode : CNode)
    (hsvc : getA N2 svcId.key = some svcnode)
    (hns : containsA N2 nsId.key = true)
    (e3 : List (String × List EdgeInfo)) (r3 : List (String × String)) :
    ReconInv N2 nsId.key svcId.key (Graph.add_edge ⟨N2, e3, r3⟩ nsId svcId) := by
  have hcont_svc : containsA N2 svcId.key = true := by
    rw [containsA_eq_isSome_getA, hsvc]; rfl
  rw [Graph.add_edge]
  show ReconInv N2 nsId.key svcId.key
    (if (containsA N2 nsId.key && containsA N2 svcId.key) = true then _ else _)
  rw [if_pos (by rw [hns, hcont_svc]; rfl)]
  show ReconInv N2 nsId.key svcId.key
    (match getA N2 svcId.key with
     | some cnode =>
        ⟨N2, insertA e3 nsId.key ((getA e3 nsId.key).getD [] ++
          [⟨svcId.key, cnode.kind⟩]), insertA r3 svcId.key nsId.key⟩
     | none => ⟨N2, e3, r3⟩)
  rw [hsvc]
  refine ⟨rfl, getA_insertA_self _ _ _, ?_⟩
  rw [getA_insertA_self]
  simp

/-- One pod-attachment step of `service_reconciler`'s fold preserves the
invariant (the attached pod's key differs from the service's). -/
theorem step_preserves_inv (N2 : List (String × CNode)) (nsK : String)
    (svcId : NodeId) (hkey' : nsK ≠ svcId.key) (pid : NodeId)
    (hpid : pid.key ≠ svcId.key) (acc : Graph)
    (hacc : ReconInv N2 nsK svcId.key acc) :
    ReconInv N2 nsK svcId.key
      (match (acc.add_edge svcId pid).find_namespace_for pid.key with
       | some ns_for_pod =>
           { nodes := acc.nodes,
             edges := updateA (acc.add_edge svcId pid).edges ns_for_pod.key
               (fun ch => ch.filter (fun e => !(e.id == pid.key))),
             reverse := removeA (acc.add_edge svcId pid).reverse pid.key }
       | none => acc.add_edge svcId pid) := by
  have hacc1 : ReconInv N2 nsK svcId.key (acc.add_edge svcId pid) := by
    rw [Graph.add_edge]
    by_cases hif : (containsA acc.nodes svcId.key && containsA acc.nodes pid.key) = true
    · rw [if_pos hif]
      rcases hg : getA acc.nodes pid.key with _ | cn
      · exact hacc
      · exact ⟨hacc.1,
          by rw [getA_insertA_ne _ _ _ _ (Ne.symm hpid)]; exact hacc.2.1,
          by rw [getA_insertA_ne _ _ _ _ hkey']; exact hacc.2.2⟩
    · rw [if_neg hif]
      exact hacc
  rcases hfind : (acc.add_edge svcId pid).find_namespace_for pid.key with _ | nsp
  · exact hacc1
  · refine ⟨hacc.1, ?_, ?_⟩
    · show getA (removeA (acc.add_edge svcId pid).reverse pid.key) svcId.key = some nsK
      rw [getA_removeA_ne _ _ _ (Ne.symm hpid)]
      exact hacc1.2.1
    · show ((getA (updateA (acc.add_edge svcId pid).edges nsp.key
          (fun ch => ch.filter (fun e => !(e.id == pid.key)))) nsK).getD []).any
        (fun e => e.id == svcId.key) = true
      have h2 := hacc1.2.2
      by_cases hk : nsK = nsp.key
      · rw [hk] at h2
        rw [hk, getA_updateA_self]
        rcases hget : getA (acc.add_edge svcId pid).edges nsp.key with _ | l
        · rw [hget] at h2
          simp at h2
        · rw [hget] at h2
          simp only [Option.getD_some] at h2
          simp only [Option.map_some', Option.getD_some]
          exact @any_filter_keeps svcId.key pid.key l
            (fun he => hpid he.symm) h2
      · rw [getA_updateA_ne _ _ _ _ hk]
        exact h2

theorem service_reconciler_creates_placeholder
    (g : Graph) (service : CServiceV) (name nspace : String) (sp : SvcSpecV)
    (hname : service.mname = some name)
    (hns : service.mnspace = some nspace)
    (hspec : service.spec = some sp)
    (hdel : service.deletion = false)
    (hnons : containsA g.nodes (NodeId.key ⟨some nspace, nspace⟩) = false)
    (hkey : NodeId.key ⟨some nspace, name⟩ ≠ NodeId.key ⟨some nspace, nspace⟩)
    (hpods : ∀ kv ∈ g.nodes, kv.2.kind = .Pod →
      kv.2.id.key ≠ NodeId.key ⟨some nspace, name⟩) :
    getA (service_reconciler service g).nodes (NodeId.key ⟨some nspace, nspace⟩) =
      some (placeholder_namespace nspace) ∧
    getA (service_reconciler service g).reverse (NodeId.key ⟨some nspace, name⟩) =
      some (NodeId.key ⟨some nspace, nspace⟩) ∧
    ((getA (service_reconciler service g).edges
        (NodeId.key ⟨some nspace, nspace⟩)).getD []).any
      (fun e => e.id == NodeId.key ⟨some nspace, name⟩) = true := by
  have hg2svc : getA
      (insertA (insertA g.nodes (NodeId.key ⟨some nspace, nspace⟩)
          (placeholder_namespace nspace)) (NodeId.key ⟨some nspace, name⟩)
        ⟨⟨some nspace, name⟩, .Service, ⟨some name, some nspace, service.mlabels⟩,
          .ServiceSpec sp.selector⟩)
      (NodeId.key ⟨some nspace, name⟩) =
      some ⟨⟨some nspace, name⟩, .Service, ⟨some name, some nspace, service.mlabels⟩,
        .ServiceSpec sp.selector⟩ := getA_insertA_self _ _ _
  have hg2ns : getA
      (insertA (insertA g.nodes (NodeId.key ⟨some nspace, nspace⟩)
          (placeholder_namespace nspace)) (NodeId.key ⟨some nspace, name⟩)
        ⟨⟨some nspace, name⟩, .Service, ⟨some name, some nspace, service.mlabels⟩,
          .ServiceSpec sp.selector⟩)
      (NodeId.key ⟨some nspace, nspace⟩) = some (placeholder_namespace nspace) := by
    rw [getA_insertA_ne _ _ _ _ (Ne.symm hkey), getA_insertA_self]
  have hcont_ns : containsA
      (insertA (insertA g.nodes (NodeId.key ⟨some nspace, nspace⟩)
          (placeholder_namespace nspace)) (NodeId.key ⟨some nspace, name⟩)
        ⟨⟨some nspace, name⟩, .Service, ⟨some name, some nspace, service.mlabels⟩,
          .ServiceSpec sp.selector⟩)
      (NodeId.key ⟨some nspace, nspace⟩) = true := by
    rw [containsA_eq_isSome_getA, hg2ns]; rfl
  have hInv : ReconInv
      (insertA (insertA g.nodes (NodeId.key ⟨some nspace, nspace⟩)
          (placeholder_namespace nspace)) (NodeId.key ⟨some nspace, name⟩)
        ⟨⟨some nspace, name⟩, .Service, ⟨some name, some nspace, service.mlabels⟩,
          .ServiceSpec sp.selector⟩)
      (NodeId.key ⟨some nspace, nspace⟩) (NodeId.key ⟨some nspace, name⟩)
      (service_reconciler service g) := by
    simp only [service_reconciler, hname, hns, hspec, hdel, hnons,
      Bool.false_eq_true, reduceIte, Graph.add_node]
    rcases hsel : sp.selector with _ | selector
    · rw [hsel] at hg2svc hg2ns hcont_ns
      rcases hrev : getA g.reverse (NodeId.key ⟨some nspace, name⟩) with _ | pk
      · exact add_edge_establishes_inv _ ⟨some nspace, nspace⟩ ⟨some nspace, name⟩
          _ hg2svc hcont_ns _ _
      · exact add_edge_establishes_inv _ ⟨some nspace, nspace⟩ ⟨some nspace, name⟩
          _ hg2svc hcont_ns _ _
    · rw [hsel] at hg2svc hg2ns hcont_ns
      rcases hrev : getA g.reverse (NodeId.key ⟨some nspace, name⟩) with _ | pk
      all_goals
        simp only [add_edge_nodes]
        refine foldl_inv _ _ _ ?_ _ (add_edge_establishes_inv _ ⟨some nspace, nspace⟩
          ⟨some nspace, name⟩ _ hg2svc hcont_ns _ _)
        intro x hx acc hacc
        rcases List.mem_map.mp hx with ⟨kv, hkvmem, rfl⟩
        have hkvfilter := List.mem_filter.mp hkvmem
        have hkind : kv.2.kind = .Pod := by
          have hcond := hkvfilter.2
          simp only [Bool.and_eq_true, beq_iff_eq] at hcond
          exact hcond.1.1
        have hkvzone : kv.2.id.key ≠ NodeId.key ⟨some nspace, name⟩ := by
          rcases mem_insertA _ _ _ _ hkvfilter.1 with h1 | h1
          · rcases mem_insertA _ _ _ _ h1 with h2 | h2
            · exact hpods kv h2 hkind
            · have hck : kv.2.kind = CResourceKind.Namespace := by
                simp [h2, placeholder_namespace]
              rw [hkind] at hck
              exact absurd hck (by decide)
          · have hck : kv.2.kind = CResourceKind.Service := by simp [h1]
            rw [hkind] at hck
            exact absurd hck (by decide)
        exact step_preserves_inv _ _ ⟨some nspace, name⟩ (Ne.symm hkey) kv.2.id
          hkvzone acc hacc
  refine ⟨?_, hInv.2.1, hInv.2.2⟩
  rw [hInv.1, getA_insertA_ne _ _ _ _ (Ne.symm hkey), getA_insertA_self]

end Ctrl

/-! ### Claim C5, amended -/

/-- C5 amended (corrected): the two implementations differ. In the watcher
hierarchy path, applying a Service with no Namespace root for its namespace
performs only the removal pass — and if the hierarchy carries no stale copy of
the service, it is returned entirely unchanged: the apply is silently dropped,
no placeholder is created (conjuncts 1 and 2). Only the legacy controller
graph path (`service_reconciler`) creates a minimal placeholder Namespace node
and attaches the Service beneath it (conjunct 3). -/
theorem C5_service_apply_paths :
    (∀ (h : List HierarchyNode) (service : ServiceV) (pods : List PodV),
      (∀ y ∈ h, (y.kind == .Namespace && y.mdata.name == service.mdata.nspace) = false) →
      update_service_relationships h service pods =
        h.map (remove_service_node (service.mdata.name.getD "") service.mdata.nspace)) ∧
    (∀ (h : List HierarchyNode) (service : ServiceV) (pods : List PodV),
      (∀ y ∈ h, (y.kind == .Namespace && y.mdata.name == service.mdata.nspace) = false) →
      existsForest (isNodeId .Service (service.mdata.name.getD "")
        service.mdata.nspace) h = false →
      update_service_relationships h service pods = h) ∧
    (∀ (g : Ctrl.Graph) (service : Ctrl.CServiceV) (name nspace : String)
        (sp : SvcSpecV),
      service.mname = some name →
      service.mnspace = some nspace →
      service.spec = some sp →
      service.deletion = false →
      Ctrl.containsA g.nodes (Ctrl.NodeId.key ⟨some nspace, nspace⟩) = false →
      Ctrl.NodeId.key ⟨some nspace, name⟩ ≠ Ctrl.NodeId.key ⟨some nspace, nspace⟩ →
      (∀ kv ∈ g.nodes, kv.2.kind = .Pod →
        kv.2.id.key ≠ Ctrl.NodeId.key ⟨some nspace, name⟩) →
      Ctrl.getA (Ctrl.service_reconciler service g).nodes
          (Ctrl.NodeId.key ⟨some nspace, nspace⟩) =
        some (Ctrl.placeholder_namespace nspace) ∧
      Ctrl.getA (Ctrl.service_reconciler service g).reverse
          (Ctrl.NodeId.key ⟨some nspace, name⟩) =
        some (Ctrl.NodeId.key ⟨some nspace, nspace⟩) ∧
      ((Ctrl.getA (Ctrl.service_reconciler service g).edges
          (Ctrl.NodeId.key ⟨some nspace, nspace⟩)).getD []).any
        (fun e => e.id == Ctrl.NodeId.key ⟨some nspace, name⟩) = true) := by
  have hdrop : ∀ (h : List HierarchyNode) (service : ServiceV) (pods : List PodV),
      (∀ y ∈ h, (y.kind == .Namespace && y.mdata.name == service.mdata.nspace) = false) →
      update_service_relationships h service pods =
        h.map (remove_service_node (service.mdata.name.getD "")
          service.mdata.nspace) := by
    intro h service pods hns
    simp only [update_service_relationships]
    apply mapFirst_of_forall_false
    intro x hx
    rcases List.mem_map.mp hx with ⟨y, hy, rfl⟩
    rw [remove_service_node]
    simp only [kind_remove_kind_node, mdata_remove_kind_node]
    exact hns y hy
  refine ⟨hdrop, ?_, ?_⟩
  · intro h service pods hns hfree
    rw [hdrop h service pods hns]
    have : h.map (remove_service_node (service.mdata.name.getD "")
        service.mdata.nspace) = h.map id := by
      apply List.map_congr_left
      intro y hy
      rw [remove_service_node, id_eq]
      apply remove_kind_node_id_of_free
      rw [existsForest, existsNodeL_eq] at hfree
      have := List.any_eq_false.mp hfree y hy
      simpa using this
    rw [this, List.map_id]
  · intro g service name nspace sp hname hns hspec hdel hnons hkey hpods
    exact Ctrl.service_reconciler_creates_placeholder g service name nspace sp
      hname hns hspec hdel hnons hkey hpods

/-- Witness for C5: a Service for namespace `ns2` applied to a forest holding
only the `ns1` root is dropped, and `service_reconciler` on the empty graph
builds the placeholder. -/
theorem C5_witness :
    update_service_relationships [ns1node]
      ⟨⟨some "svc2", some "ns2", none⟩, some ⟨some []⟩⟩ [] = [ns1node] ∧
    (Ctrl.getA (Ctrl.service_reconciler
        ⟨some "svc1", some "ns1", none, some ⟨none⟩, false⟩ ⟨[], [], []⟩).nodes
      (Ctrl.NodeId.key ⟨some "ns1", "ns1"⟩) =
      some (Ctrl.placeholder_namespace "ns1")) :=
  ⟨C5_service_apply_paths.2.1 [ns1node]
      ⟨⟨some "svc2", some "ns2", none⟩, some ⟨some []⟩⟩ []
      (fun y hy => by
        rcases List.mem_singleton.mp hy with rfl
        rfl)
      (by rfl),
   (C5_service_apply_paths.2.2 ⟨[], [], []⟩
      ⟨some "svc1", some "ns1", none, some ⟨none⟩, false⟩ "svc1" "ns1" ⟨none⟩
      rfl rfl rfl rfl rfl (by decide) (fun kv hkv => absurd hkv (by simp))).1⟩

/-! ### Claim C10 -/

/-- C10 (confirmed): `Graph::add_edge` leaves the graph entirely unchanged
(nodes, edges and reverse maps untouched) whenever either endpoint key is
absent from the nodes map; when both endpoints are present it appends the
child (with its stored kind) to the parent's edge list, points the child's
reverse entry at the parent, and touches nothing else — so no edge is ever
created to or from a nonexistent node. -/
theorem C10_add_edge_frame :
    ∀ (g : Ctrl.Graph) (parent child : Ctrl.NodeId),
      ((Ctrl.containsA g.nodes parent.key = false ∨
        Ctrl.containsA g.nodes child.key = false) →
        g.add_edge parent child = g) ∧
      (∀ cnode : Ctrl.CNode,
        Ctrl.containsA g.nodes parent.key = true →
        Ctrl.getA g.nodes child.key = some cnode →
        (g.add_edge parent child).nodes = g.nodes ∧
        Ctrl.getA (g.add_edge parent child).edges parent.key =
          some ((Ctrl.getA g.edges parent.key).getD [] ++
            [⟨child.key, cnode.kind⟩]) ∧
        (∀ k, k ≠ parent.key →
          Ctrl.getA (g.add_edge parent child).edges k = Ctrl.getA g.edges k) ∧
        Ctrl.getA (g.add_edge parent child).reverse child.key = some parent.key ∧
        (∀ k, k ≠ child.key →
          Ctrl.getA (g.add_edge parent child).reverse k =
            Ctrl.getA g.reverse k)) := by
  intro g parent child
  constructor
  · intro habs
    rw [Ctrl.Graph.add_edge]
    rcases habs with h | h <;> rw [if_neg (by simp [h])]
  · intro cnode hp hc
    have hcontc : Ctrl.containsA g.nodes child.key = true := by
      rw [Ctrl.containsA_eq_isSome_getA, hc]
      rfl
    have hgoal : g.add_edge parent child =
        ⟨g.nodes,
         Ctrl.insertA g.edges parent.key
           ((Ctrl.getA g.edges parent.key).getD [] ++ [⟨child.key, cnode.kind⟩]),
         Ctrl.insertA g.reverse child.key parent.key⟩ := by
      rw [Ctrl.Graph.add_edge]
      simp only [hp, hcontc, Bool.and_self, if_true, hc]
    rw [hgoal]
    exact ⟨rfl, Ctrl.getA_insertA_self _ _ _,
      fun k hk => Ctrl.getA_insertA_ne _ _ _ _ hk,
      Ctrl.getA_insertA_self _ _ _,
      fun k hk => Ctrl.getA_insertA_ne _ _ _ _ hk⟩

/-- Witness for C10: on the empty graph, both endpoints are absent and the
call is a no-op. -/
theorem C10_witness :
    Ctrl.Graph.add_edge ⟨[], [], []⟩ ⟨some "ns1", "ns1"⟩ ⟨some "ns1", "svc1"⟩ =
      (⟨[], [], []⟩ : Ctrl.Graph) :=
  (C10_add_edge_frame ⟨[], [], []⟩ ⟨some "ns1", "ns1"⟩ ⟨some "ns1", "svc1"⟩).1
    (Or.inl rfl)

end Constellation
